import Mathlib

/-!
Verification of the Register Storage Engine of `safe_network`
(`safenode/src/domain/storage/registers/mod.rs`).

The development shallowly embeds the storage module: pure Rust functions
become Lean functions, the async filesystem becomes an explicit `FS` state
threaded through the operations, and fallible code returns `Except Error`.
Components of the repository that are referenced by the storage module but
whose sources are not part of the verified tree (the CRDT `Register` core,
the `protocol::messages` types, BLS signatures, `prefix_tree_path`,
`list_files_in`) are modelled from the specification; each such definition
carries a doc comment saying so.
-/

set_option maxRecDepth 100000

namespace SafeNetwork

/-! ## Bytes and helpers -/

/-- Byte strings are lists of naturals; well-formed bytes are `< 256`. -/
abbrev Bytes := List Nat

def U64 : Nat := 18446744073709551616

/-- 64-bit left rotation, on naturals reduced mod `2^64`. -/
def rotl64 (v s : Nat) : Nat :=
  ((v <<< s) ||| (v >>> (64 - s))) % U64

/-- Little-endian byte rendering of a natural, `len` bytes. -/
def natToLEBytes : Nat → Nat → Bytes
  | _, 0 => []
  | n, len + 1 => n % 256 :: natToLEBytes (n / 256) len

/-- Little-endian byte decoding. -/
def leBytesToNat (bs : Bytes) : Nat := bs.foldr (fun b acc => acc * 256 + b) 0

/-! ## Keccak / SHA3 (the `tiny_keccak` dependency)

`register_op_id` in the source calls `tiny_keccak::Sha3::v256()` and
finalizes it into a 64-byte output buffer.  The `tiny_keccak` crate
implements FIPS 202: `Sha3::vN` is the sponge with rate `200 - N/4` bytes
and domain separator `0x06`, and `finalize` squeezes as many bytes as the
output buffer requests.  We implement that sponge here; the two standard
test vectors for SHA3-256 and SHA3-512 of the empty string are checked in
the theorems section. -/

def keccakRC : List Nat :=
  [0x1, 0x8082, 0x800000000000808a, 0x8000000080008000,
   0x808b, 0x80000001, 0x8000000080008081, 0x8000000000008009,
   0x8a, 0x88, 0x80008009, 0x8000000a,
   0x8000808b, 0x800000000000008b, 0x8000000000008089, 0x8000000000008003,
   0x8000000000008002, 0x8000000000000080, 0x800a, 0x800000008000000a,
   0x8000000080008081, 0x8000000000008080, 0x80000001, 0x8000000080008008]

/-- Combined rho/pi source-lane table: output lane `j` reads input lane `piSrc[j]`. -/
def piSrc : List Nat :=
  [0, 6, 12, 18, 24, 3, 9, 10, 16, 22, 1, 7, 13, 19, 20, 4, 5, 11, 17, 23, 2, 8, 14, 15, 21]

/-- Combined rho/pi rotation table: output lane `j` is rotated by `piRot[j]`. -/
def piRot : List Nat :=
  [0, 44, 43, 21, 14, 28, 20, 3, 45, 61, 1, 6, 25, 8, 18, 27, 36, 10, 15, 56, 62, 55, 39, 41, 2]

def lane (A : List Nat) (i : Nat) : Nat := A.getD i 0

def theta (A : List Nat) : List Nat :=
  let C := (List.range 5).map (fun x =>
    lane A x ^^^ lane A (x + 5) ^^^ lane A (x + 10) ^^^ lane A (x + 15) ^^^ lane A (x + 20))
  let D := (List.range 5).map (fun x => lane C ((x + 4) % 5) ^^^ rotl64 (lane C ((x + 1) % 5)) 1)
  (List.range 25).map (fun i => lane A i ^^^ lane D (i % 5))

def rhoPi (A : List Nat) : List Nat :=
  (List.range 25).map (fun j => rotl64 (lane A (lane piSrc j)) (lane piRot j))

def chi (B : List Nat) : List Nat :=
  (List.range 25).map (fun j =>
    lane B j ^^^ ((lane B (j / 5 * 5 + (j % 5 + 1) % 5) ^^^ (U64 - 1)) &&&
      lane B (j / 5 * 5 + (j % 5 + 2) % 5)))

def iotaStep (rc : Nat) (A : List Nat) : List Nat :=
  match A with
  | [] => []
  | a :: rest => (a ^^^ rc) :: rest

def keccakRound (A : List Nat) (rc : Nat) : List Nat := iotaStep rc (chi (rhoPi (theta A)))

/-- The Keccak-f[1600] permutation on a 25-lane state. -/
def keccakF (A : List Nat) : List Nat := keccakRC.foldl keccakRound A

def lanesToBytes (A : List Nat) : Bytes :=
  ((List.range 25).map (fun i => natToLEBytes (lane A i) 8)).flatten

def absorbBlock (A : List Nat) (block : Bytes) : List Nat :=
  (List.range 25).map (fun i => lane A i ^^^ leBytesToNat ((block.drop (8 * i)).take 8))

def chunksGo (r fuel : Nat) (bs : Bytes) : List Bytes :=
  match fuel with
  | 0 => []
  | fuel + 1 => if bs.isEmpty then [] else bs.take r :: chunksGo r fuel (bs.drop r)

def chunksOf (r : Nat) (bs : Bytes) : List Bytes := chunksGo r bs.length bs

/-- FIPS 202 `pad10*1` with the SHA3 domain bits: append `0x06`, zero-fill,
and set the top bit of the final byte of the block. -/
def sha3Pad (rate : Nat) (data : Bytes) : Bytes :=
  let q := rate - data.length % rate
  if q = 1 then data ++ [0x86]
  else data ++ [0x06] ++ List.replicate (q - 2) 0 ++ [0x80]

def squeezeGo (rate : Nat) (A : List Nat) (blocks : Nat) : Bytes :=
  match blocks with
  | 0 => []
  | b + 1 => (lanesToBytes A).take rate ++ squeezeGo rate (keccakF A) b

/-- The `tiny_keccak` SHA3 sponge: `bits` selects the rate (`200 - bits/4`
bytes), `outLen` is the number of bytes squeezed.  `tinySha3 256 d 32` is
standard SHA3-256, `tinySha3 512 d 64` is standard SHA3-512, and
`tinySha3 256 d 64` is what `Sha3::v256()` finalized into a 64-byte buffer
produces. -/
def tinySha3 (bits : Nat) (data : Bytes) (outLen : Nat) : Bytes :=
  let rate := 200 - bits / 4
  let A := (chunksOf rate (sha3Pad rate data)).foldl
    (fun s block => keccakF (absorbBlock s block)) (List.replicate 25 0)
  (squeezeGo rate A ((outLen + rate - 1) / rate)).take outLen

/-- Standard SHA3-512: 64-byte digest of the 72-byte-rate sponge. -/
def sha3_512 (data : Bytes) : Bytes := tinySha3 512 data 64

/-! ## Hex encoding (the `hex` dependency) -/

/-- Lowercase hex digit for `n < 16`. -/
def hexDigit (n : Nat) : Char := if n < 10 then Char.ofNat (48 + n) else Char.ofNat (87 + n)

/-- `hex::encode`: two lowercase hex characters per byte. -/
def hexEncode (bs : Bytes) : String :=
  String.mk ((bs.map (fun b => [hexDigit (b / 16), hexDigit (b % 16)])).flatten)

/-- The sixteen lowercase hex digits. -/
def lowerHexChars : List Char := "0123456789abcdef".toList

/-! ## Data model

The `protocol::messages` and `register` modules are referenced by the
storage module but are not part of the verified tree, so their types are
modelled from the specification (spec sections 3 and 4.3).  BLS public
keys and signatures are opaque values; we model them as naturals (a real
key is a bounded byte string, so well-formedness bounds them by `2^64` in
the model codec). -/

/-- Modelled from the spec: a BLS public key, opaque to the engine. -/
abbrev PublicKey := Nat

/-- Modelled from the spec: a BLS signature, opaque to the engine. -/
abbrev Signature := Nat

/-- Modelled from the spec (section 3): a Register address is the pair
`(name, tag)`; the 32-byte `name` is modelled as a natural. -/
structure RegisterAddress where
  name : Nat
  tag : Nat
deriving DecidableEq

/-- Modelled from the spec (section 3): the canonical `id` of an address,
obtained here by concatenating the byte renderings of `name` and `tag`
(the spec allows "hashing or concatenation"); equal `(name, tag)` pairs
give identical ids. -/
def RegisterAddress.id (a : RegisterAddress) : Bytes :=
  natToLEBytes a.name 8 ++ natToLEBytes a.tag 8

/-- Modelled from the spec (section 3): `Anyone` or a specific key. -/
inductive User
  | Anyone
  | Key (pk : PublicKey)
deriving DecidableEq

/-- Modelled from the spec (section 3): the closed action set. -/
inductive Action
  | Read
  | Write
deriving DecidableEq

/-- Modelled from the spec (section 3): owner plus a per-user permission
map, kept as an association list. -/
structure Policy where
  owner : User
  permissions : List (User × List Action)
deriving DecidableEq

/-- Modelled from the spec (section 3): a CRDT entry carries a value and
its causal parents; its `EntryHash` is derived from both. -/
structure CrdtOp where
  value : Bytes
  parents : List Nat
deriving DecidableEq

/-- Cheap deterministic digest of a list of naturals (base-257 fold over
the bytes), used by the modelled crypto primitives. -/
def encBytesNat (l : List Nat) : Nat := l.foldl (fun acc b => acc * 257 + b % 256 + 1) 0

/-- Modelled from the spec (section 3): the EntryHash of an entry is a
content hash of the entry plus its causal parents.  Only determinism of
the hash matters to the storage engine, so the model digest suffices. -/
def CrdtOp.hash (op : CrdtOp) : Nat := Nat.pair (encBytesNat op.value) (encBytesNat op.parents)

/-- Modelled from the spec: the CRDT edit payload carried by an
`EditRegister`; the storage module reaches into its `crdt_op` field. -/
structure RegisterEditOp where
  crdt_op : CrdtOp
deriving DecidableEq

/-- Modelled from the spec (6): the `Create` payload `{ name, tag, policy }`. -/
structure CreateRegister where
  name : Nat
  tag : Nat
  policy : Policy
deriving DecidableEq

/-- Modelled from the spec (6): the `Edit` payload `{ address, edit }`. -/
structure EditRegister where
  address : RegisterAddress
  edit : RegisterEditOp
deriving DecidableEq

/-- Modelled from the spec (6): claimed public key plus signature. -/
structure DataAuthority where
  public_key : PublicKey
  signature : Signature
deriving DecidableEq

/-- Modelled from the spec (6): a signed `Create`. -/
structure SignedRegisterCreate where
  op : CreateRegister
  auth : DataAuthority
deriving DecidableEq

/-- Modelled from the spec (6): a signed `Edit`. -/
structure SignedRegisterEdit where
  op : EditRegister
  auth : DataAuthority
deriving DecidableEq

/-- Modelled from the spec (6): the tagged union of signed operations. -/
inductive RegisterCmd
  | Create (cmd : SignedRegisterCreate)
  | Edit (cmd : SignedRegisterEdit)
deriving DecidableEq

/-- Modelled from the spec: the destination address of a command. -/
def RegisterCmd.dst : RegisterCmd → RegisterAddress
  | .Create c => ⟨c.op.name, c.op.tag⟩
  | .Edit e => e.op.address

/-- Modelled from the spec (6): the wire bundle `{ address, op_log }`. -/
structure ReplicatedRegisterLog where
  address : RegisterAddress
  op_log : List RegisterCmd
deriving DecidableEq

/-! ## Deterministic codec (the `bincode` dependency)

Modelled from the spec (4.2): a deterministic, length-prefixed,
little-endian, fixed-field-order binary codec that rejects trailing
bytes on deserialization.  Variant tags are 4 bytes, lengths and scalar
fields 8 bytes, raw value bytes one byte each, mirroring `bincode`'s
fixed-int encoding of the corresponding Rust types. -/

def encU32 (n : Nat) : Bytes := natToLEBytes n 4

def encU64 (n : Nat) : Bytes := natToLEBytes n 8

def encSeq {α : Type} (enc : α → Bytes) (l : List α) : Bytes :=
  encU64 l.length ++ (l.map enc).flatten

def encByte (b : Nat) : Bytes := [b]

def natDigitsGo : Nat → Nat → Bytes
  | 0, _ => []
  | _, 0 => []
  | fuel + 1, n + 1 => (n + 1) % 256 :: natDigitsGo fuel ((n + 1) / 256)

/-- Little-endian base-256 digits of a natural (empty for zero). -/
def natDigits (n : Nat) : Bytes := natDigitsGo n n

/-- Length-prefixed variable-width natural, used for the opaque
cryptographic values (keys, signatures, entry hashes), which `bincode`
writes as length-prefixed byte sequences. -/
def encVarNat (n : Nat) : Bytes := encSeq encByte (natDigits n)

def encUser : User → Bytes
  | .Anyone => encU32 0
  | .Key pk => encU32 1 ++ encVarNat pk

def encAction : Action → Bytes
  | .Read => encU32 0
  | .Write => encU32 1

def encPerm (p : User × List Action) : Bytes := encUser p.1 ++ encSeq encAction p.2

def encPolicy (p : Policy) : Bytes := encUser p.owner ++ encSeq encPerm p.permissions

def encCrdtOp (op : CrdtOp) : Bytes := encSeq encByte op.value ++ encSeq encVarNat op.parents

def encAddress (a : RegisterAddress) : Bytes := encU64 a.name ++ encU64 a.tag

def encAuth (a : DataAuthority) : Bytes := encVarNat a.public_key ++ encVarNat a.signature

/-- Serialization of the `Create` payload (what its signature covers). -/
def serializeCreateOp (op : CreateRegister) : Bytes :=
  encU64 op.name ++ encU64 op.tag ++ encPolicy op.policy

/-- Serialization of the `Edit` payload (what its signature covers). -/
def serializeEditOp (op : EditRegister) : Bytes :=
  encAddress op.address ++ encCrdtOp op.edit.crdt_op

/-- Serialization of a whole signed command, as written to disk. -/
def serializeCmd : RegisterCmd → Bytes
  | .Create c => encU32 0 ++ serializeCreateOp c.op ++ encAuth c.auth
  | .Edit e => encU32 1 ++ serializeEditOp e.op ++ encAuth e.auth

/-! ### Parser (deserialization) -/

def readBytes (n : Nat) (bs : Bytes) : Option (Bytes × Bytes) :=
  if n ≤ bs.length then some (bs.take n, bs.drop n) else none

def readU32 (bs : Bytes) : Option (Nat × Bytes) :=
  (readBytes 4 bs).map (fun p => (leBytesToNat p.1, p.2))

def readU64 (bs : Bytes) : Option (Nat × Bytes) :=
  (readBytes 8 bs).map (fun p => (leBytesToNat p.1, p.2))

def readByte (bs : Bytes) : Option (Nat × Bytes) :=
  match bs with
  | [] => none
  | b :: rest => some (b, rest)

def readN {α : Type} (read : Bytes → Option (α × Bytes)) : Nat → Bytes → Option (List α × Bytes)
  | 0, bs => some ([], bs)
  | n + 1, bs =>
    (read bs).bind (fun p => (readN read n p.2).map (fun q => (p.1 :: q.1, q.2)))

def readSeq {α : Type} (read : Bytes → Option (α × Bytes)) (bs : Bytes) :
    Option (List α × Bytes) :=
  (readU64 bs).bind (fun p => readN read p.1 p.2)

def readVarNat (bs : Bytes) : Option (Nat × Bytes) :=
  (readSeq readByte bs).map (fun p => (leBytesToNat p.1, p.2))

def readUser (bs : Bytes) : Option (User × Bytes) :=
  (readU32 bs).bind (fun p =>
    if p.1 = 0 then some (User.Anyone, p.2)
    else if p.1 = 1 then (readVarNat p.2).map (fun q => (User.Key q.1, q.2))
    else none)

def readAction (bs : Bytes) : Option (Action × Bytes) :=
  (readU32 bs).bind (fun p =>
    if p.1 = 0 then some (Action.Read, p.2)
    else if p.1 = 1 then some (Action.Write, p.2)
    else none)

def readPerm (bs : Bytes) : Option ((User × List Action) × Bytes) :=
  (readUser bs).bind (fun p => (readSeq readAction p.2).map (fun q => ((p.1, q.1), q.2)))

def readPolicy (bs : Bytes) : Option (Policy × Bytes) :=
  (readUser bs).bind (fun p => (readSeq readPerm p.2).map (fun q => (⟨p.1, q.1⟩, q.2)))

def readCrdtOp (bs : Bytes) : Option (CrdtOp × Bytes) :=
  (readSeq readByte bs).bind (fun p => (readSeq readVarNat p.2).map (fun q => (⟨p.1, q.1⟩, q.2)))

def readAddress (bs : Bytes) : Option (RegisterAddress × Bytes) :=
  (readU64 bs).bind (fun p => (readU64 p.2).map (fun q => (⟨p.1, q.1⟩, q.2)))

def readAuth (bs : Bytes) : Option (DataAuthority × Bytes) :=
  (readVarNat bs).bind (fun p => (readVarNat p.2).map (fun q => (⟨p.1, q.1⟩, q.2)))

def readCreateOp (bs : Bytes) : Option (CreateRegister × Bytes) :=
  (readU64 bs).bind (fun p =>
    (readU64 p.2).bind (fun q => (readPolicy q.2).map (fun w => (⟨p.1, q.1, w.1⟩, w.2))))

def readEditOp (bs : Bytes) : Option (EditRegister × Bytes) :=
  (readAddress bs).bind (fun p => (readCrdtOp p.2).map (fun q => (⟨p.1, ⟨q.1⟩⟩, q.2)))

/-- Deserialization of a signed command; trailing bytes are rejected. -/
def deserializeCmd (bs : Bytes) : Option RegisterCmd :=
  (readU32 bs).bind (fun p =>
    if p.1 = 0 then
      (readCreateOp p.2).bind (fun q =>
        (readAuth q.2).bind (fun w =>
          if w.2 = [] then some (RegisterCmd.Create ⟨q.1, w.1⟩) else none))
    else if p.1 = 1 then
      (readEditOp p.2).bind (fun q =>
        (readAuth q.2).bind (fun w =>
          if w.2 = [] then some (RegisterCmd.Edit ⟨q.1, w.1⟩) else none))
    else none)

/-! ### Well-formedness: every fixed-width scalar fits its encoding and
every sequence length fits its `u64` prefix.  Real commands satisfy all
of these bounds trivially (names are 32 bytes, keys 48, signatures 96). -/

def wfU64 (n : Nat) : Prop := n < U64

/-- The variable-width encoding of `n` fits its length prefix. -/
def wfVar (n : Nat) : Prop := wfU64 (natDigits n).length

def User.wf : User → Prop
  | .Anyone => True
  | .Key pk => wfVar pk

def Policy.wf (p : Policy) : Prop :=
  p.owner.wf ∧ wfU64 p.permissions.length ∧ ∀ e ∈ p.permissions, e.1.wf ∧ wfU64 e.2.length

def CrdtOp.wf (op : CrdtOp) : Prop :=
  wfU64 op.value.length ∧ wfU64 op.parents.length ∧ ∀ n ∈ op.parents, wfVar n

def DataAuthority.wf (a : DataAuthority) : Prop := wfVar a.public_key ∧ wfVar a.signature

def RegisterCmd.wf : RegisterCmd → Prop
  | .Create c => wfU64 c.op.name ∧ wfU64 c.op.tag ∧ c.op.policy.wf ∧ c.auth.wf
  | .Edit e => wfU64 e.op.address.name ∧ wfU64 e.op.address.tag ∧
      e.op.edit.crdt_op.wf ∧ e.auth.wf

instance : DecidablePred wfU64 := fun _ => Nat.decLt _ _

instance : DecidablePred wfVar := fun _ => Nat.decLt _ _

instance : DecidablePred User.wf := fun u =>
  match u with
  | .Anyone => inferInstanceAs (Decidable True)
  | .Key _ => inferInstanceAs (Decidable (wfVar _))

instance : DecidablePred Policy.wf := fun _ => inferInstanceAs (Decidable (_ ∧ _ ∧ _))

instance : DecidablePred CrdtOp.wf := fun _ => inferInstanceAs (Decidable (_ ∧ _ ∧ _))

instance : DecidablePred DataAuthority.wf := fun _ => inferInstanceAs (Decidable (_ ∧ _))

instance : DecidablePred RegisterCmd.wf := fun c =>
  match c with
  | .Create _ => inferInstanceAs (Decidable (_ ∧ _ ∧ _ ∧ _))
  | .Edit _ => inferInstanceAs (Decidable (_ ∧ _ ∧ _ ∧ _))

deriving instance DecidableEq for Except

/-! ## Errors

The storage `Error` enum is not part of the verified tree; modelled from
the spec's error taxonomy (section 7). -/

inductive Error
  | RegisterNotFound (addr : RegisterAddress)
  | NoSuchEntry (hash : Nat)
  | NoSuchUser (user : User)
  | AccessDenied (user : User)
  | RegisterAddrMismatch (cmd_dst_addr : RegisterAddress) (reg_addr : RegisterAddress)
  | InvalidSignature
  | CrdtApplyError
  | SerializationError
  | IoError
deriving DecidableEq

/-! ## Idealized signatures

Modelled from the spec (section 3): "An operation is valid iff
`signature` verifies `public_key` over the deterministic serialization of
`op`."  We use the standard symbolic idealization: a signature verifies
exactly when it equals the signature produced over that payload by the
key pair of the claimed public key. -/

/-- Modelled from the spec: the (idealized) BLS signature of `msg` by the
key pair of `pk`. -/
def blsSign (pk : PublicKey) (msg : Bytes) : Signature := Nat.pair pk (encBytesNat msg)

/-- Modelled from the spec: signature verification; failures surface as
`InvalidSignature` as in the error taxonomy (spec section 7). -/
def DataAuthority.verify_authority (auth : DataAuthority) (payload : Bytes) :
    Except Error Unit :=
  if auth.signature = blsSign auth.public_key payload then Except.ok ()
  else Except.error Error.InvalidSignature

/-! ## CRDT Register core

The `register` submodule is not part of the verified tree; modelled from
the spec (sections 3 and 4.3): an append-only set of entries keyed by
their (collision-free) EntryHash, an owner, and an immutable policy.
`apply_op` is idempotent and commutative, and accepts edits whose parents
are unknown. -/

structure Register where
  address : RegisterAddress
  owner : User
  policy : Policy
  entries : List CrdtOp
deriving DecidableEq

/-- Modelled from the spec (4.3): the pure constructor. -/
def Register.new (owner : User) (name : Nat) (tag : Nat) (policy : Policy) : Register :=
  { address := ⟨name, tag⟩, owner := owner, policy := policy, entries := [] }

/-- Insert an entry into the hash-ordered entry list; a present key is a
no-op, making application idempotent. -/
def insertEntry (e : CrdtOp) : List CrdtOp → List CrdtOp
  | [] => [e]
  | x :: xs =>
    if e.hash = x.hash then x :: xs
    else if e.hash < x.hash then e :: x :: xs
    else x :: insertEntry e xs

/-- Modelled from the spec (4.3): incorporate an edit into the entry DAG;
re-application is a no-op, unknown parents are accepted. -/
def Register.apply_op (r : Register) (edit : RegisterEditOp) : Register :=
  { r with entries := insertEntry edit.crdt_op r.entries }

/-- Number of entries, as `Register::size`. -/
def Register.size (r : Register) : Nat := r.entries.length

def lookupPerms (u : User) : List (User × List Action) → Option (List Action)
  | [] => none
  | e :: rest => if e.1 = u then some e.2 else lookupPerms u rest

/-- Modelled from the spec (4.3): the owner has all rights; otherwise the
user's permission entry, or failing that the `Anyone` entry, must allow
the action; a user with no applicable entry yields `NoSuchUser`, a
present entry without the action yields `AccessDenied`. -/
def Register.check_permissions (r : Register) (action : Action) (requester : Option User) :
    Except Error Unit :=
  let user := requester.getD User.Anyone
  if user = r.owner then Except.ok ()
  else
    match lookupPerms user r.policy.permissions, lookupPerms User.Anyone r.policy.permissions with
    | some acts, _ => if action ∈ acts then Except.ok () else Except.error (Error.AccessDenied user)
    | none, some acts =>
      if action ∈ acts then Except.ok () else Except.error (Error.AccessDenied user)
    | none, none => Except.error (Error.NoSuchUser user)

/-! ## Filesystem model

The engine's I/O (tokio `fs`) becomes an explicit state: a list of files
(path, bytes) in creation order plus a list of existing directories.
Paths are lists of components. -/

abbrev FsPath := List String

structure FS where
  files : List (FsPath × Bytes)
  dirs : List FsPath
deriving DecidableEq

def FS.lookupFile (fs : FS) (p : FsPath) : Option Bytes :=
  (fs.files.find? (fun f => decide (f.1 = p))).map Prod.snd

/-- `Path::exists`: true for an existing file or directory. -/
def FS.pathExists (fs : FS) (p : FsPath) : Bool :=
  (fs.lookupFile p).isSome || decide (p ∈ fs.dirs)

def fsPathPrefixes (p : FsPath) : List FsPath :=
  (List.range p.length).map (fun i => p.take (i + 1))

/-- `create_dir_all`: create the directory and all missing ancestors. -/
def FS.createDirAll (fs : FS) (p : FsPath) : FS :=
  { fs with
    dirs := (fsPathPrefixes p).foldl (fun ds q => if q ∈ ds then ds else ds ++ [q]) fs.dirs }

/-- `File::create` + `write_all` + `sync_data`, fused: the file is
durable with the given contents.  Callers check existence first. -/
def FS.writeFile (fs : FS) (p : FsPath) (data : Bytes) : FS :=
  { fs with files := fs.files ++ [(p, data)] }

/-- `remove_file`: fails on a directory (EISDIR) and on a missing path. -/
def FS.removeFile (fs : FS) (p : FsPath) : Except Error FS :=
  if p ∈ fs.dirs then Except.error Error.IoError
  else
    match fs.lookupFile p with
    | some _ => Except.ok { fs with files := fs.files.filter (fun f => decide (f.1 ≠ p)) }
    | none => Except.error Error.IoError

/-- Modelled from the spec (4.4 step 2): `list_files_in` enumerates the
regular files directly under a directory; enumeration order is the file
creation order in this model (the spec leaves it arbitrary). -/
def FS.list_files_in (fs : FS) (dir : FsPath) : List FsPath :=
  (fs.files.map Prod.fst).filter (fun p => decide (p.length = dir.length + 1 ∧ p.take dir.length = dir))

/-! ## The register storage engine (`registers/mod.rs`) -/

/-- `RegisterLog` from the source: a vector of commands. -/
abbrev RegisterLog := List RegisterCmd

/-- The transient reconstruction: optional state, replay buffer, path. -/
structure StoredRegister where
  state : Option Register
  op_log : RegisterLog
  op_log_path : FsPath
deriving DecidableEq

def REGISTERS_STORE_DIR_NAME : String := "registers"

structure RegisterStorage where
  file_store_path : FsPath
deriving DecidableEq

def RegisterStorage.new (path : FsPath) : RegisterStorage :=
  ⟨path ++ [REGISTERS_STORE_DIR_NAME]⟩

/-- Modelled from the spec (4.1): the base directory extended by
single-hex-character segments taken from the prefix of the address id;
the model uses depth two.  Deterministic and pure. -/
def prefix_tree_path (base : FsPath) (id : Bytes) : FsPath :=
  base ++ ((hexEncode id).toList.take 2).map (fun c => String.mk [c])

def RegisterStorage.address_to_filepath (s : RegisterStorage) (address : RegisterAddress) :
    Except Error FsPath :=
  let reg_id := address.id
  let path := prefix_tree_path s.file_store_path reg_id
  Except.ok (path ++ [hexEncode reg_id])

/-- `register_op_id`: SHA3 over the serialized command.  The source
constructs the hasher with `Sha3::v256()` and finalizes it into a
64-byte output buffer, then hex-encodes it. -/
def register_op_id (cmd : RegisterCmd) : Except Error String :=
  let bytes := serializeCmd cmd
  let output := tinySha3 256 bytes 64
  Except.ok (hexEncode output)

/-- The operation id as a plain string (`register_op_id` never fails). -/
def opIdStr (cmd : RegisterCmd) : String := hexEncode (tinySha3 256 (serializeCmd cmd) 64)

/-- `apply`: validate and apply one command against a Register: address
check, signature check, `Write` permission check, CRDT application. -/
def RegisterStorage.apply (_s : RegisterStorage) (cmd : RegisterCmd) (register : Register) :
    Except Error Register :=
  let addr := cmd.dst
  if addr ≠ register.address then
    Except.error (Error.RegisterAddrMismatch addr register.address)
  else
    match cmd with
    | .Create _ => Except.ok register
    | .Edit e =>
      match e.auth.verify_authority (serializeEditOp e.op) with
      | .error err => Except.error err
      | .ok _ =>
        let public_key := e.auth.public_key
        match register.check_permissions Action.Write (some (User.Key public_key)) with
        | .error err => Except.error err
        | .ok _ => Except.ok (register.apply_op e.op.edit)

/-- Sequential application of a log, as the `for` loop in the
`(None, Create)` branch; the first error propagates. -/
def RegisterStorage.applyAll (s : RegisterStorage) : List RegisterCmd → Register →
    Except Error Register
  | [], r => Except.ok r
  | c :: cs, r =>
    match s.apply c r with
    | .error e => Except.error e
    | .ok r' => s.applyAll cs r'

/-- `try_to_apply_cmd_against_register_state`.  Note the source's
`(Some(_), Create)` arm is `return Ok(())`: it returns early and does
not push the command onto `op_log`; every other successful arm pushes. -/
def RegisterStorage.try_to_apply_cmd_against_register_state (s : RegisterStorage)
    (cmd : RegisterCmd) (stored_reg : StoredRegister) : Except Error StoredRegister :=
  match stored_reg.state, cmd with
  | some _, .Create _ => Except.ok stored_reg
  | some register, .Edit _ =>
    match s.apply cmd register with
    | .error e => Except.error e
    | .ok reg' =>
      Except.ok { stored_reg with state := some reg', op_log := stored_reg.op_log ++ [cmd] }
  | none, .Create c =>
    match c.auth.verify_authority (serializeCreateOp c.op) with
    | .error e => Except.error e
    | .ok _ =>
      let register := Register.new c.op.policy.owner c.op.name c.op.tag c.op.policy
      match s.applyAll stored_reg.op_log register with
      | .error e => Except.error e
      | .ok reg' =>
        Except.ok { stored_reg with state := some reg', op_log := stored_reg.op_log ++ [cmd] }
  | none, .Edit _ =>
    Except.ok { stored_reg with op_log := stored_reg.op_log ++ [cmd] }

/-- `write_register_cmd`: content-addressed persistence of one command;
an existing file is skipped silently. -/
def RegisterStorage.write_register_cmd (_s : RegisterStorage) (fs : FS) (cmd : RegisterCmd)
    (path : FsPath) : Except Error Unit × FS :=
  match register_op_id cmd with
  | .error e => (Except.error e, fs)
  | .ok reg_cmd_id =>
    let path' := path ++ [reg_cmd_id]
    if fs.pathExists path' then (Except.ok (), fs)
    else
      let serialized_data := serializeCmd cmd
      (Except.ok (), fs.writeFile path' serialized_data)

/-- `write_log_to_disk`: empty log short-circuits; otherwise create the
directory, then write every command, returning the last error seen. -/
def RegisterStorage.write_log_to_disk (s : RegisterStorage) (fs : FS) (log : RegisterLog)
    (path : FsPath) : Except Error Unit × FS :=
  if log.isEmpty then (Except.ok (), fs)
  else
    let fs1 := fs.createDirAll path
    let folded := log.foldl
      (fun (acc : FS × Option Error) cmd =>
        match s.write_register_cmd acc.1 cmd path with
        | (.error err, fs') => (fs', some err)
        | (.ok _, fs') => (fs', acc.2))
      (fs1, none)
    match folded.2 with
    | some err => (Except.error err, folded.1)
    | none => (Except.ok (), folded.1)

/-- One iteration of the loader's file loop: decode the file, skip it on
failure, append the command to the log, and materialize the Register
from the first `Create` (later `Create`s only warn, equal or not). -/
def loadStep (fs : FS) (stored : StoredRegister) (filepath : FsPath) : StoredRegister :=
  match (fs.lookupFile filepath).bind deserializeCmd with
  | some reg_cmd =>
    let stored1 := { stored with op_log := stored.op_log ++ [reg_cmd] }
    match reg_cmd with
    | .Create c =>
      let register := Register.new c.op.policy.owner c.op.name c.op.tag c.op.policy
      match stored1.state with
      | some _ => stored1
      | none => { stored1 with state := some register }
    | .Edit _ => stored1
  | none => stored

/-- `open_reg_log_from_disk`: enumerate the register's directory, decode
each file, skip corrupted ones, collect the op log, and keep the first
`Create`'s Register. -/
def RegisterStorage.open_reg_log_from_disk (s : RegisterStorage) (fs : FS)
    (addr : RegisterAddress) : Except Error StoredRegister :=
  match s.address_to_filepath addr with
  | .error e => Except.error e
  | .ok path =>
    let stored0 : StoredRegister := ⟨none, [], path⟩
    if ¬ fs.pathExists path then Except.ok stored0
    else Except.ok ((fs.list_files_in path).foldl (loadStep fs) stored0)

/-- `try_load_stored_register`: open the log and, if the creation command
is present, apply all edit ops to reconstruct the Register.  No
signature or permission validation happens here. -/
def RegisterStorage.try_load_stored_register (s : RegisterStorage) (fs : FS)
    (addr : RegisterAddress) : Except Error StoredRegister :=
  match s.open_reg_log_from_disk fs addr with
  | .error e => Except.error e
  | .ok stored =>
    match stored.state with
    | some register =>
      Except.ok { stored with
        state := some (stored.op_log.foldl
          (fun reg c =>
            match c with
            | .Edit e => reg.apply_op e.op.edit
            | .Create _ => reg)
          register) }
    | none => Except.ok stored

/-- `write`: load, validate and apply, then persist the single command. -/
def RegisterStorage.write (s : RegisterStorage) (fs : FS) (cmd : RegisterCmd) :
    Except Error Unit × FS :=
  let addr := cmd.dst
  match s.try_load_stored_register fs addr with
  | .error e => (Except.error e, fs)
  | .ok stored_reg =>
    match s.try_to_apply_cmd_against_register_state cmd stored_reg with
    | .error e => (Except.error e, fs)
    | .ok stored' => s.write_log_to_disk fs [cmd] stored'.op_log_path

/-- `remove`: delete the Register's data by calling `remove_file` on the
path derived from the address. -/
def RegisterStorage.remove (s : RegisterStorage) (fs : FS) (address : RegisterAddress) :
    Except Error Unit × FS :=
  match s.address_to_filepath address with
  | .error e => (Except.error e, fs)
  | .ok filepath =>
    match fs.removeFile filepath with
    | .error e => (Except.error e, fs)
    | .ok fs' => (Except.ok (), fs')

/-- One step of `update`'s loop: a command that fails validation is
discarded with a warning, a successful one joins the batch. -/
def RegisterStorage.updateStep (s : RegisterStorage)
    (acc : RegisterLog × StoredRegister) (cmd : RegisterCmd) : RegisterLog × StoredRegister :=
  match s.try_to_apply_cmd_against_register_state cmd acc.2 with
  | .error _ => acc
  | .ok stored' => (acc.1 ++ [cmd], stored')

/-- `update`: run every replicated command through the same validation
pipeline as `write`, dropping failures, then persist the surviving batch
with a single `write_log_to_disk` call. -/
def RegisterStorage.update (s : RegisterStorage) (fs : FS) (data : ReplicatedRegisterLog) :
    Except Error Unit × FS :=
  let addr := data.address
  match s.try_load_stored_register fs addr with
  | .error e => (Except.error e, fs)
  | .ok stored_reg =>
    let folded := data.op_log.foldl (s.updateStep) ([], stored_reg)
    s.write_log_to_disk fs folded.1 folded.2.op_log_path

/-! ## Specification-side helper definitions

These are not part of the source; they name intermediate values of the
engine so that the theorems below can speak about them. -/

/-- The register directory for an address (`address_to_filepath` always
succeeds with this path). -/
def regDirPath (s : RegisterStorage) (addr : RegisterAddress) : FsPath :=
  prefix_tree_path s.file_store_path addr.id ++ [hexEncode addr.id]

/-- The commands that decode successfully from the files directly under
`dir`, in enumeration order. -/
def decodedCmds (fs : FS) (dir : FsPath) : List RegisterCmd :=
  (fs.list_files_in dir).filterMap (fun p => (fs.lookupFile p).bind deserializeCmd)

/-- The Register materialized from the first `Create` of a decoded log. -/
def firstCreateRegister : List RegisterCmd → Option Register
  | [] => none
  | .Create c :: _ => some (Register.new c.op.policy.owner c.op.name c.op.tag c.op.policy)
  | .Edit _ :: rest => firstCreateRegister rest

/-- Replay of all edit commands of a log against a Register, as done by
`try_load_stored_register`. -/
def replayEdits (ops : List RegisterCmd) (r : Register) : Register :=
  ops.foldl
    (fun reg c =>
      match c with
      | .Edit e => reg.apply_op e.op.edit
      | .Create _ => reg)
    r

/-- The `StoredRegister` that `try_load_stored_register` reconstructs. -/
def loadStored (s : RegisterStorage) (fs : FS) (addr : RegisterAddress) : StoredRegister :=
  let path := regDirPath s addr
  if ¬ fs.pathExists path then ⟨none, [], path⟩
  else
    let dec := decodedCmds fs path
    ⟨(firstCreateRegister dec).map (replayEdits dec), dec, path⟩

/-- Sequential composition of `write` calls, stopping at the first error:
"performing `write(E1); ...; write(En)`". -/
def writeAll (s : RegisterStorage) (fs : FS) : List RegisterCmd → Except Error FS
  | [] => Except.ok fs
  | c :: cs =>
    match s.write fs c with
    | (.ok _, fs') => writeAll s fs' cs
    | (.error e, _) => Except.error e

def isCreateCmd : RegisterCmd → Prop
  | .Create _ => True
  | .Edit _ => False

def isEditCmd : RegisterCmd → Prop
  | .Create _ => False
  | .Edit _ => True

instance : DecidablePred isCreateCmd := fun c =>
  match c with
  | .Create _ => inferInstanceAs (Decidable True)
  | .Edit _ => inferInstanceAs (Decidable False)

instance : DecidablePred isEditCmd := fun c =>
  match c with
  | .Create _ => inferInstanceAs (Decidable False)
  | .Edit _ => inferInstanceAs (Decidable True)

/-- The signature of the command does not verify against its claimed
public key (over the deterministic serialization of its payload). -/
def cmdSigInvalid : RegisterCmd → Prop
  | .Create c => c.auth.signature ≠ blsSign c.auth.public_key (serializeCreateOp c.op)
  | .Edit e => e.auth.signature ≠ blsSign e.auth.public_key (serializeEditOp e.op)

instance : DecidablePred cmdSigInvalid := fun c =>
  match c with
  | .Create _ => inferInstanceAs (Decidable (_ ≠ _))
  | .Edit _ => inferInstanceAs (Decidable (_ ≠ _))

def isError {ε α : Type} : Except ε α → Bool
  | .error _ => true
  | .ok _ => false

/-! ### Concrete vectors

A tiny owner key, one Register at `(name 5, tag 3)`, a valid `Create`,
a valid owner-signed `Edit`, and their invalid-signature variants; used
by the witness and counterexample theorems. -/

def wPolicy : Policy := ⟨User.Key 7, []⟩

def wCreateOp : CreateRegister := ⟨5, 3, wPolicy⟩

def wCreateSigned : SignedRegisterCreate :=
  ⟨wCreateOp, ⟨7, blsSign 7 (serializeCreateOp wCreateOp)⟩⟩

def wCreate : RegisterCmd := RegisterCmd.Create wCreateSigned

def wBadCreate : RegisterCmd := RegisterCmd.Create ⟨wCreateOp, ⟨7, 999⟩⟩

def wEditOp : EditRegister := ⟨⟨5, 3⟩, ⟨⟨[1, 2], []⟩⟩⟩

def wEdit : RegisterCmd :=
  RegisterCmd.Edit ⟨wEditOp, ⟨7, blsSign 7 (serializeEditOp wEditOp)⟩⟩

def wEditOp2 : EditRegister := ⟨⟨5, 3⟩, ⟨⟨[9], []⟩⟩⟩

def wEdit2 : RegisterCmd :=
  RegisterCmd.Edit ⟨wEditOp2, ⟨7, blsSign 7 (serializeEditOp wEditOp2)⟩⟩

def wBadEdit : RegisterCmd := RegisterCmd.Edit ⟨wEditOp, ⟨7, 999⟩⟩

def wPolicyB : Policy := ⟨User.Key 8, []⟩

def wCreateOpB : CreateRegister := ⟨5, 3, wPolicyB⟩

/-- A cross-signed `Create` for the same address with a different owner. -/
def wCreateB : RegisterCmd :=
  RegisterCmd.Create ⟨wCreateOpB, ⟨8, blsSign 8 (serializeCreateOp wCreateOpB)⟩⟩

def wStore : RegisterStorage := RegisterStorage.new ["base"]

def wFs0 : FS := ⟨[], []⟩

def wAddr : RegisterAddress := ⟨5, 3⟩

def wRegister : Register := Register.new (User.Key 7) 5 3 wPolicy

/-! # Theorems

First the codec correctness (print-then-parse roundtrip), then the
loader, writer and update characterizations, then one theorem (plus
witness or counterexample) per specification claim. -/

theorem natToLEBytes_length (n k : Nat) : (natToLEBytes n k).length = k := by
  induction k generalizing n with
  | zero => rfl
  | succ k ih => simp [natToLEBytes, ih]

theorem leBytesToNat_cons (b : Nat) (bs : Bytes) :
    leBytesToNat (b :: bs) = leBytesToNat bs * 256 + b := rfl

theorem leBytesToNat_natToLEBytes (k n : Nat) :
    leBytesToNat (natToLEBytes n k) = n % 256 ^ k := by
  induction k generalizing n with
  | zero => simp [natToLEBytes, leBytesToNat, Nat.mod_one]
  | succ k ih =>
    rw [natToLEBytes, leBytesToNat_cons, ih, pow_succ, mul_comm (256 ^ k) 256, Nat.mod_mul]
    omega

theorem readBytes_append (l rest : Bytes) : readBytes l.length (l ++ rest) = some (l, rest) := by
  simp [readBytes, List.take_left, List.drop_left]

theorem u64_eq_pow : U64 = 256 ^ 8 := by norm_num [U64]

theorem readU64_encU64 (n : Nat) (h : wfU64 n) (rest : Bytes) :
    readU64 (encU64 n ++ rest) = some (n, rest) := by
  have hlen : (encU64 n).length = 8 := natToLEBytes_length n 8
  rw [readU64, show (8 : Nat) = (encU64 n).length from hlen.symm, readBytes_append]
  have hn : n < 18446744073709551616 := h
  simp [encU64, leBytesToNat_natToLEBytes]
  omega

theorem readU32_encU32 (n : Nat) (h : n < 4294967296) (rest : Bytes) :
    readU32 (encU32 n ++ rest) = some (n, rest) := by
  have hlen : (encU32 n).length = 4 := natToLEBytes_length n 4
  rw [readU32, show (4 : Nat) = (encU32 n).length from hlen.symm, readBytes_append]
  simp [encU32, leBytesToNat_natToLEBytes]
  omega

theorem natDigitsGo_spec (fuel n : Nat) (h : n ≤ fuel) :
    leBytesToNat (natDigitsGo fuel n) = n := by
  induction fuel generalizing n with
  | zero =>
    interval_cases n
    rfl
  | succ fuel ih =>
    match n with
    | 0 => rfl
    | n + 1 =>
      rw [natDigitsGo, leBytesToNat_cons, ih ((n + 1) / 256) (by omega)]
      omega

theorem leBytesToNat_natDigits (n : Nat) : leBytesToNat (natDigits n) = n :=
  natDigitsGo_spec n n le_rfl

theorem readN_readByte (l rest : Bytes) :
    readN readByte l.length (l ++ rest) = some (l, rest) := by
  induction l with
  | nil => rfl
  | cons b bs ih => simp [readN, readByte, ih]

theorem flatten_map_encByte (l : Bytes) : (l.map encByte).flatten = l := by
  induction l with
  | nil => rfl
  | cons b bs ih => simp [encByte, ih]

theorem readN_encSeq {α : Type} (read : Bytes → Option (α × Bytes)) (enc : α → Bytes)
    (l : List α) (h : ∀ a ∈ l, ∀ r : Bytes, read (enc a ++ r) = some (a, r)) (rest : Bytes) :
    readN read l.length ((l.map enc).flatten ++ rest) = some (l, rest) := by
  induction l generalizing rest with
  | nil => rfl
  | cons a as ih =>
    simp only [List.map_cons, List.flatten_cons, List.append_assoc, List.length_cons]
    rw [readN, h a (List.mem_cons_self a as)]
    simp only [Option.some_bind]
    rw [ih (fun x hx r => h x (List.mem_cons_of_mem a hx) r) rest]
    rfl

theorem readSeq_encSeq {α : Type} (read : Bytes → Option (α × Bytes)) (enc : α → Bytes)
    (l : List α) (hlen : wfU64 l.length)
    (h : ∀ a ∈ l, ∀ r : Bytes, read (enc a ++ r) = some (a, r)) (rest : Bytes) :
    readSeq read (encSeq enc l ++ rest) = some (l, rest) := by
  rw [encSeq, readSeq, List.append_assoc, readU64_encU64 _ hlen]
  simp only [Option.some_bind]
  exact readN_encSeq read enc l h rest

theorem readVarNat_encVarNat (n : Nat) (h : wfVar n) (rest : Bytes) :
    readVarNat (encVarNat n ++ rest) = some (n, rest) := by
  rw [readVarNat, encVarNat,
    readSeq_encSeq readByte encByte (natDigits n) h (fun a _ r => rfl) rest]
  simp [leBytesToNat_natDigits]

theorem readUser_encUser (u : User) (h : u.wf) (rest : Bytes) :
    readUser (encUser u ++ rest) = some (u, rest) := by
  cases u with
  | Anyone =>
    rw [encUser, readUser, readU32_encU32 0 (by norm_num)]
    rfl
  | Key pk =>
    rw [encUser, List.append_assoc, readUser, readU32_encU32 1 (by norm_num)]
    simp only [Option.some_bind, one_ne_zero, if_false, if_pos rfl]
    rw [readVarNat_encVarNat pk h]
    rfl

theorem readAction_encAction (a : Action) (rest : Bytes) :
    readAction (encAction a ++ rest) = some (a, rest) := by
  cases a with
  | Read =>
    rw [encAction, readAction, readU32_encU32 0 (by norm_num)]
    rfl
  | Write =>
    rw [encAction, readAction, readU32_encU32 1 (by norm_num)]
    rfl

theorem readPerm_encPerm (p : User × List Action) (hu : p.1.wf) (hl : wfU64 p.2.length)
    (rest : Bytes) : readPerm (encPerm p ++ rest) = some (p, rest) := by
  rw [encPerm, List.append_assoc, readPerm, readUser_encUser p.1 hu]
  simp only [Option.some_bind]
  rw [readSeq_encSeq readAction encAction p.2 hl (fun a _ r => readAction_encAction a r)]
  rfl

theorem readPolicy_encPolicy (p : Policy) (h : p.wf) (rest : Bytes) :
    readPolicy (encPolicy p ++ rest) = some (p, rest) := by
  rw [encPolicy, List.append_assoc, readPolicy, readUser_encUser p.owner h.1]
  simp only [Option.some_bind]
  rw [readSeq_encSeq readPerm encPerm p.permissions h.2.1
    (fun e he r => readPerm_encPerm e (h.2.2 e he).1 (h.2.2 e he).2 r)]
  rfl

theorem readCrdtOp_encCrdtOp (op : CrdtOp) (h : op.wf) (rest : Bytes) :
    readCrdtOp (encCrdtOp op ++ rest) = some (op, rest) := by
  rw [encCrdtOp, List.append_assoc, readCrdtOp,
    readSeq_encSeq readByte encByte op.value h.1 (fun a _ r => rfl)]
  simp only [Option.some_bind]
  rw [readSeq_encSeq readVarNat encVarNat op.parents h.2.1
    (fun n hn r => readVarNat_encVarNat n (h.2.2 n hn) r)]
  rfl

theorem readAddress_encAddress (a : RegisterAddress) (h1 : wfU64 a.name) (h2 : wfU64 a.tag)
    (rest : Bytes) : readAddress (encAddress a ++ rest) = some (a, rest) := by
  rw [encAddress, List.append_assoc, readAddress, readU64_encU64 _ h1]
  simp only [Option.some_bind]
  rw [readU64_encU64 _ h2]
  rfl

theorem readAuth_encAuth (a : DataAuthority) (h : a.wf) (rest : Bytes) :
    readAuth (encAuth a ++ rest) = some (a, rest) := by
  rw [encAuth, List.append_assoc, readAuth, readVarNat_encVarNat _ h.1]
  simp only [Option.some_bind]
  rw [readVarNat_encVarNat _ h.2]
  rfl

theorem readCreateOp_encCreateOp (op : CreateRegister) (h1 : wfU64 op.name)
    (h2 : wfU64 op.tag) (h3 : op.policy.wf) (rest : Bytes) :
    readCreateOp (serializeCreateOp op ++ rest) = some (op, rest) := by
  rw [serializeCreateOp, List.append_assoc, List.append_assoc, readCreateOp,
    readU64_encU64 _ h1]
  simp only [Option.some_bind]
  rw [readU64_encU64 _ h2]
  simp only [Option.some_bind]
  rw [readPolicy_encPolicy op.policy h3]
  rfl

theorem readEditOp_encEditOp (op : EditRegister) (h1 : wfU64 op.address.name)
    (h2 : wfU64 op.address.tag) (h3 : op.edit.crdt_op.wf) (rest : Bytes) :
    readEditOp (serializeEditOp op ++ rest) = some (op, rest) := by
  rw [serializeEditOp, List.append_assoc, readEditOp, readAddress_encAddress op.address h1 h2]
  simp only [Option.some_bind]
  rw [readCrdtOp_encCrdtOp op.edit.crdt_op h3]
  rfl

/-- The codec roundtrips: deserialization inverts serialization on every
well-formed command. -/
theorem deserializeCmd_serializeCmd (c : RegisterCmd) (h : c.wf) :
    deserializeCmd (serializeCmd c) = some c := by
  cases c with
  | Create cr =>
    obtain ⟨h1, h2, h3, h4⟩ := h
    rw [serializeCmd, List.append_assoc, deserializeCmd, readU32_encU32 0 (by norm_num)]
    simp only [Option.some_bind, if_pos rfl]
    rw [readCreateOp_encCreateOp cr.op h1 h2 h3]
    simp only [Option.some_bind]
    rw [show encAuth cr.auth = encAuth cr.auth ++ [] from (List.append_nil _).symm,
      readAuth_encAuth cr.auth h4]
    rfl
  | Edit e =>
    obtain ⟨h1, h2, h3, h4⟩ := h
    rw [serializeCmd, List.append_assoc, deserializeCmd, readU32_encU32 1 (by norm_num)]
    simp only [Option.some_bind, one_ne_zero, if_false, if_pos rfl]
    rw [readEditOp_encEditOp e.op h1 h2 h3]
    simp only [Option.some_bind]
    rw [show encAuth e.auth = encAuth e.auth ++ [] from (List.append_nil _).symm,
      readAuth_encAuth e.auth h4]
    rfl

/-! ### Filesystem lemmas -/

theorem createDirAll_files (fs : FS) (p : FsPath) : (fs.createDirAll p).files = fs.files := rfl

theorem createDirAll_lookup (fs : FS) (p q : FsPath) :
    (fs.createDirAll p).lookupFile q = fs.lookupFile q := rfl

theorem createDirAll_listFiles (fs : FS) (p dir : FsPath) :
    (fs.createDirAll p).list_files_in dir = fs.list_files_in dir := rfl

theorem foldInsert_mem (l : List FsPath) (ds : List FsPath) (q : FsPath) :
    q ∈ l.foldl (fun ds q => if q ∈ ds then ds else ds ++ [q]) ds ↔ q ∈ ds ∨ q ∈ l := by
  induction l generalizing ds with
  | nil => simp
  | cons a as ih =>
    simp only [List.foldl_cons, ih, List.mem_cons]
    by_cases ha : a ∈ ds
    · simp [ha]
      constructor
      · tauto
      · rintro (h | h | h) <;> try tauto
        subst h
        tauto
    · simp [ha, List.mem_append]
      tauto

theorem createDirAll_dirs_mem (fs : FS) (p q : FsPath) :
    q ∈ (fs.createDirAll p).dirs ↔ q ∈ fs.dirs ∨ q ∈ fsPathPrefixes p :=
  foldInsert_mem (fsPathPrefixes p) fs.dirs q

theorem mem_fsPathPrefixes_self (p : FsPath) (h : p ≠ []) : p ∈ fsPathPrefixes p := by
  have hl : 0 < p.length := List.length_pos.mpr h
  simp only [fsPathPrefixes, List.mem_map, List.mem_range]
  exact ⟨p.length - 1, by omega, by rw [show p.length - 1 + 1 = p.length by omega, List.take_length]⟩

theorem length_le_of_mem_fsPathPrefixes (p q : FsPath) (h : q ∈ fsPathPrefixes p) :
    q.length ≤ p.length := by
  simp only [fsPathPrefixes, List.mem_map, List.mem_range] at h
  obtain ⟨i, _, rfl⟩ := h
  simp [List.length_take]

theorem createDirAll_noop (fs : FS) (p : FsPath) (h : ∀ q ∈ fsPathPrefixes p, q ∈ fs.dirs) :
    fs.createDirAll p = fs := by
  have : ∀ (l : List FsPath) (ds : List FsPath), (∀ q ∈ l, q ∈ ds) →
      l.foldl (fun ds q => if q ∈ ds then ds else ds ++ [q]) ds = ds := by
    intro l
    induction l with
    | nil => intro ds _; rfl
    | cons a as ih =>
      intro ds hds
      simp only [List.foldl_cons, if_pos (hds a (List.mem_cons_self a as))]
      exact ih ds (fun q hq => hds q (List.mem_cons_of_mem a hq))
  cases fs with
  | mk files dirs => simp only [FS.createDirAll, this (fsPathPrefixes p) dirs h]

theorem createDirAll_pathExists_iff (fs : FS) (p q : FsPath) :
    (fs.createDirAll p).pathExists q = true ↔
      fs.pathExists q = true ∨ q ∈ fsPathPrefixes p := by
  simp only [FS.pathExists, Bool.or_eq_true, Option.isSome_iff_exists, decide_eq_true_eq,
    createDirAll_lookup, createDirAll_dirs_mem]
  tauto

theorem createDirAll_pathExists_longer (fs : FS) (p q : FsPath) (h : p.length < q.length) :
    (fs.createDirAll p).pathExists q = fs.pathExists q := by
  have hq : q ∉ fsPathPrefixes p := fun hm =>
    absurd (length_le_of_mem_fsPathPrefixes p q hm) (by omega)
  simp only [FS.pathExists, createDirAll_lookup]
  congr 1
  simp only [decide_eq_decide, createDirAll_dirs_mem]
  tauto

theorem writeFile_dirs (fs : FS) (p : FsPath) (b : Bytes) : (fs.writeFile p b).dirs = fs.dirs :=
  rfl

theorem writeFile_lookup_self (fs : FS) (p : FsPath) (b : Bytes)
    (h : fs.lookupFile p = none) : (fs.writeFile p b).lookupFile p = some b := by
  have hf : List.find? (fun f => decide (f.1 = p)) fs.files = none := by
    cases hfind : List.find? (fun f => decide (f.1 = p)) fs.files with
    | none => rfl
    | some x => simp [FS.lookupFile, hfind] at h
  simp [FS.lookupFile, FS.writeFile, List.find?_append, hf, List.find?]

theorem writeFile_lookup_other (fs : FS) (p q : FsPath) (b : Bytes) (h : q ≠ p) :
    (fs.writeFile p b).lookupFile q = fs.lookupFile q := by
  simp only [FS.lookupFile, FS.writeFile, List.find?_append]
  have : List.find? (fun f => decide (f.1 = q)) [(p, b)] = none := by
    simp [List.find?, Ne.symm h]
  rw [this]
  cases hf : List.find? (fun f => decide (f.1 = q)) fs.files <;> simp

theorem writeFile_listFiles (fs : FS) (p : FsPath) (b : Bytes) (dir : FsPath) :
    (fs.writeFile p b).list_files_in dir =
      fs.list_files_in dir ++
        (if p.length = dir.length + 1 ∧ p.take dir.length = dir then [p] else []) := by
  simp only [FS.list_files_in, FS.writeFile, List.map_append, List.filter_append, List.map_cons,
    List.map_nil]
  congr 1
  split <;> rename_i hsp <;> simp [List.filter, hsp]

theorem lookup_isSome_of_mem_map_fst (fs : FS) (q : FsPath)
    (h : q ∈ fs.files.map Prod.fst) : (fs.lookupFile q).isSome := by
  simp only [List.mem_map] at h
  obtain ⟨f, hf, rfl⟩ := h
  have hs : (List.find? (fun g => decide (g.1 = f.1)) fs.files).isSome := by
    rw [List.find?_isSome]
    exact ⟨f, hf, by simp⟩
  simp only [FS.lookupFile]
  cases hfind : List.find? (fun g => decide (g.1 = f.1)) fs.files with
  | none => rw [hfind] at hs; simp at hs
  | some x => simp

theorem mem_files_of_mem_listFiles (fs : FS) (dir q : FsPath)
    (h : q ∈ fs.list_files_in dir) : q ∈ fs.files.map Prod.fst := by
  simp only [FS.list_files_in] at h
  exact List.mem_of_mem_filter h

/-! ### Loader characterization -/

theorem address_to_filepath_eq (s : RegisterStorage) (addr : RegisterAddress) :
    s.address_to_filepath addr = Except.ok (regDirPath s addr) := rfl

theorem loadStep_op_log (fs : FS) (st : StoredRegister) (p : FsPath) :
    (loadStep fs st p).op_log
      = st.op_log ++ ((fs.lookupFile p).bind deserializeCmd).toList := by
  rw [loadStep]
  cases hd : (fs.lookupFile p).bind deserializeCmd with
  | none => simp
  | some cmd => cases cmd <;> cases hs : st.state <;> simp

theorem loadStep_path (fs : FS) (st : StoredRegister) (p : FsPath) :
    (loadStep fs st p).op_log_path = st.op_log_path := by
  rw [loadStep]
  cases hd : (fs.lookupFile p).bind deserializeCmd with
  | none => rfl
  | some cmd => cases cmd <;> cases hs : st.state <;> simp

theorem loadStep_state (fs : FS) (st : StoredRegister) (p : FsPath) :
    (loadStep fs st p).state
      = match st.state with
        | some r => some r
        | none => firstCreateRegister (((fs.lookupFile p).bind deserializeCmd).toList) := by
  rw [loadStep]
  cases hd : (fs.lookupFile p).bind deserializeCmd with
  | none => cases hs : st.state <;> simp [firstCreateRegister, hs]
  | some cmd =>
    cases cmd <;> cases hs : st.state <;>
      simp [firstCreateRegister, hs, Register.new]

theorem loadFold_op_log (fs : FS) (paths : List FsPath) (st : StoredRegister) :
    (paths.foldl (loadStep fs) st).op_log
      = st.op_log ++ paths.filterMap (fun p => (fs.lookupFile p).bind deserializeCmd) := by
  induction paths generalizing st with
  | nil => simp
  | cons p ps ih =>
    rw [List.foldl_cons, ih]
    rw [loadStep_op_log]
    cases hd : (fs.lookupFile p).bind deserializeCmd with
    | none => simp [List.filterMap_cons, hd]
    | some cmd => simp [List.filterMap_cons, hd]

theorem loadFold_path (fs : FS) (paths : List FsPath) (st : StoredRegister) :
    (paths.foldl (loadStep fs) st).op_log_path = st.op_log_path := by
  induction paths generalizing st with
  | nil => rfl
  | cons p ps ih => rw [List.foldl_cons, ih, loadStep_path]

theorem firstCreateRegister_append (l1 l2 : List RegisterCmd) :
    firstCreateRegister (l1 ++ l2)
      = match firstCreateRegister l1 with
        | some r => some r
        | none => firstCreateRegister l2 := by
  induction l1 with
  | nil => simp [firstCreateRegister]
  | cons c cs ih => cases c <;> simp [firstCreateRegister, ih]

theorem loadFold_state (fs : FS) (paths : List FsPath) (st : StoredRegister) :
    (paths.foldl (loadStep fs) st).state
      = match st.state with
        | some r => some r
        | none =>
          firstCreateRegister
            (paths.filterMap (fun p => (fs.lookupFile p).bind deserializeCmd)) := by
  induction paths generalizing st with
  | nil => cases hs : st.state <;> simp [firstCreateRegister, hs]
  | cons p ps ih =>
    rw [List.foldl_cons, ih, loadStep_state]
    cases hs : st.state with
    | some r => simp
    | none =>
      cases hd : (fs.lookupFile p).bind deserializeCmd with
      | none => simp [List.filterMap_cons, hd, firstCreateRegister]
      | some cmd =>
        simp only [List.filterMap_cons, hd, Option.toList_some]
        cases cmd with
        | Create c => simp [firstCreateRegister]
        | Edit e => simp [firstCreateRegister]

/-- The loader always succeeds, returning exactly the decoded commands
and the first `Create`'s Register. -/
theorem open_reg_eq (s : RegisterStorage) (fs : FS) (addr : RegisterAddress) :
    s.open_reg_log_from_disk fs addr
      = Except.ok
          (if ¬ fs.pathExists (regDirPath s addr) then ⟨none, [], regDirPath s addr⟩
           else
             ⟨firstCreateRegister (decodedCmds fs (regDirPath s addr)),
              decodedCmds fs (regDirPath s addr), regDirPath s addr⟩) := by
  rw [RegisterStorage.open_reg_log_from_disk, address_to_filepath_eq]
  simp only []
  by_cases hex1 : fs.pathExists (regDirPath s addr)
  · simp only [hex1, not_true, if_false, Except.ok.injEq]
    have e1 := loadFold_op_log fs (fs.list_files_in (regDirPath s addr)) ⟨none, [], regDirPath s addr⟩
    have e2 := loadFold_state fs (fs.list_files_in (regDirPath s addr)) ⟨none, [], regDirPath s addr⟩
    have e3 := loadFold_path fs (fs.list_files_in (regDirPath s addr)) ⟨none, [], regDirPath s addr⟩
    simp only [List.nil_append] at e1 e2 e3
    cases hfold : (fs.list_files_in (regDirPath s addr)).foldl (loadStep fs)
        ⟨none, [], regDirPath s addr⟩ with
    | mk stout logout pathout =>
      rw [hfold] at e1 e2 e3
      simp only at e1 e2 e3
      simp [e1, e2, e3, decodedCmds]
  · simp [hex1]

/-- `try_load_stored_register` always succeeds with `loadStored`. -/
theorem try_load_eq (s : RegisterStorage) (fs : FS) (addr : RegisterAddress) :
    s.try_load_stored_register fs addr = Except.ok (loadStored s fs addr) := by
  rw [RegisterStorage.try_load_stored_register, open_reg_eq]
  by_cases hex1 : fs.pathExists (regDirPath s addr)
  · simp only [hex1, not_true, if_false, loadStored]
    cases hfc : firstCreateRegister (decodedCmds fs (regDirPath s addr)) with
    | none => simp [hfc]
    | some r => simp [hfc, replayEdits]
  · simp [hex1, loadStored]

theorem loadStored_path (s : RegisterStorage) (fs : FS) (addr : RegisterAddress) :
    (loadStored s fs addr).op_log_path = regDirPath s addr := by
  rw [loadStored]
  split <;> rfl

/-! ### Write-path characterization -/

theorem try_apply_path (s : RegisterStorage) (cmd : RegisterCmd) (st st' : StoredRegister)
    (h : s.try_to_apply_cmd_against_register_state cmd st = Except.ok st') :
    st'.op_log_path = st.op_log_path := by
  rw [RegisterStorage.try_to_apply_cmd_against_register_state.eq_def] at h
  cases hs : st.state <;> cases cmd <;> rw [hs] at h <;> simp only [] at h
  · rename_i c
    cases hv : (c.auth.verify_authority (serializeCreateOp c.op)) with
    | error e => rw [hv] at h; simp at h
    | ok _ =>
      rw [hv] at h
      simp only [] at h
      cases ha : s.applyAll st.op_log
          (Register.new c.op.policy.owner c.op.name c.op.tag c.op.policy) with
      | error e => rw [ha] at h; simp at h
      | ok reg' => rw [ha] at h; cases h; rfl
  · cases h
    rfl
  · cases h
    rfl
  · rename_i reg _
    cases ha : s.apply _ reg with
    | error e => rw [ha] at h; simp at h
    | ok reg' => rw [ha] at h; cases h; rfl

/-- On success the command is appended to `op_log` — except in the
`(Some, Create)` arm, whose early `return` leaves the log untouched. -/
theorem try_apply_op_log (s : RegisterStorage) (cmd : RegisterCmd) (st st' : StoredRegister)
    (h : s.try_to_apply_cmd_against_register_state cmd st = Except.ok st') :
    (st.state.isSome ∧ isCreateCmd cmd ∧ st' = st)
      ∨ st'.op_log = st.op_log ++ [cmd] := by
  rw [RegisterStorage.try_to_apply_cmd_against_register_state.eq_def] at h
  cases hs : st.state <;> cases cmd <;> rw [hs] at h <;> simp only [] at h
  · rename_i c
    cases hv : (c.auth.verify_authority (serializeCreateOp c.op)) with
    | error e => rw [hv] at h; simp at h
    | ok _ =>
      rw [hv] at h
      simp only [] at h
      cases ha : s.applyAll st.op_log
          (Register.new c.op.policy.owner c.op.name c.op.tag c.op.policy) with
      | error e => rw [ha] at h; simp at h
      | ok reg' => rw [ha] at h; cases h; right; rfl
  · cases h
    right
    rfl
  · cases h
    exact Or.inl ⟨by simp [hs], trivial, rfl⟩
  · rename_i reg _
    cases ha : s.apply _ reg with
    | error e => rw [ha] at h; simp at h
    | ok reg' => rw [ha] at h; cases h; right; rfl

/-- `write` in terms of the loaded state: an application error surfaces
with the filesystem untouched, success persists the single command. -/
theorem write_eq (s : RegisterStorage) (fs : FS) (cmd : RegisterCmd) :
    s.write fs cmd
      = match s.try_to_apply_cmd_against_register_state cmd (loadStored s fs cmd.dst) with
        | .error e => (Except.error e, fs)
        | .ok st' => s.write_log_to_disk fs [cmd] st'.op_log_path := by
  rw [RegisterStorage.write, try_load_eq]

/-- `write_log_to_disk` on a single command: create the directory, then
write the op file unless it already exists. -/
theorem write_log_single (s : RegisterStorage) (fs : FS) (cmd : RegisterCmd) (p : FsPath) :
    s.write_log_to_disk fs [cmd] p
      = (Except.ok (),
          if (fs.createDirAll p).pathExists (p ++ [opIdStr cmd]) then fs.createDirAll p
          else (fs.createDirAll p).writeFile (p ++ [opIdStr cmd]) (serializeCmd cmd)) := by
  rw [RegisterStorage.write_log_to_disk]
  simp only [List.isEmpty_cons, Bool.false_eq_true, if_false, List.foldl_cons, List.foldl_nil,
    RegisterStorage.write_register_cmd, register_op_id, opIdStr]
  by_cases hx : (fs.createDirAll p).pathExists
      (p ++ [hexEncode (tinySha3 256 (serializeCmd cmd) 64)]) = true
  · simp [hx]
  · simp [hx]

/-- Adding a decodable file to a register directory appends its command
to the decoded log. -/
theorem decodedCmds_writeFile (fs : FS) (dir : FsPath) (nm : String) (bytes : Bytes)
    (cmd : RegisterCmd) (hlk : fs.lookupFile (dir ++ [nm]) = none)
    (hdec : deserializeCmd bytes = some cmd) :
    decodedCmds (fs.writeFile (dir ++ [nm]) bytes) dir = decodedCmds fs dir ++ [cmd] := by
  have hchild : (dir ++ [nm]).length = dir.length + 1 ∧ (dir ++ [nm]).take dir.length = dir := by
    constructor
    · simp
    · simp [List.take_left]
  rw [decodedCmds, writeFile_listFiles, if_pos hchild, List.filterMap_append]
  congr 1
  · apply List.filterMap_congr
    intro q hq
    have hne : q ≠ dir ++ [nm] := by
      intro heq
      have := lookup_isSome_of_mem_map_fst fs q (mem_files_of_mem_listFiles fs dir q hq)
      rw [heq, hlk] at this
      simp at this
    rw [writeFile_lookup_other fs (dir ++ [nm]) q bytes hne]
  · simp [List.filterMap_cons, writeFile_lookup_self fs (dir ++ [nm]) bytes hlk, hdec]

/-! ### Register and application invariance -/

theorem apply_op_address (r : Register) (e : RegisterEditOp) :
    (r.apply_op e).address = r.address := rfl

theorem apply_op_owner (r : Register) (e : RegisterEditOp) :
    (r.apply_op e).owner = r.owner := rfl

theorem apply_op_policy (r : Register) (e : RegisterEditOp) :
    (r.apply_op e).policy = r.policy := rfl

theorem check_permissions_apply_op (r : Register) (x : RegisterEditOp) (a : Action)
    (u : Option User) :
    (r.apply_op x).check_permissions a u = r.check_permissions a u := rfl

theorem replayEdits_nil (r : Register) : replayEdits [] r = r := rfl

theorem replayEdits_cons (c : RegisterCmd) (l : List RegisterCmd) (r : Register) :
    replayEdits (c :: l) r
      = replayEdits l
          (match c with
           | .Edit e => r.apply_op e.op.edit
           | .Create _ => r) := rfl

theorem replayEdits_append (l1 l2 : List RegisterCmd) (r : Register) :
    replayEdits (l1 ++ l2) r = replayEdits l2 (replayEdits l1 r) := by
  simp [replayEdits, List.foldl_append]

theorem replayEdits_cons_edit (e : SignedRegisterEdit) (l : List RegisterCmd) (r : Register) :
    replayEdits (RegisterCmd.Edit e :: l) r = replayEdits l (r.apply_op e.op.edit) := rfl

theorem replayEdits_cons_create (c : SignedRegisterCreate) (l : List RegisterCmd)
    (r : Register) : replayEdits (RegisterCmd.Create c :: l) r = replayEdits l r := rfl

/-- Applying one more CRDT op to the target register does not change
whether `apply` succeeds (address, signature and permission checks only
look at fields `apply_op` preserves). -/
theorem apply_ok_apply_op (s : RegisterStorage) (cmd : RegisterCmd) (r : Register)
    (x : RegisterEditOp) (r' : Register) (h : s.apply cmd r = Except.ok r') :
    ∃ r'', s.apply cmd (r.apply_op x) = Except.ok r'' := by
  rw [RegisterStorage.apply.eq_def] at h ⊢
  rw [apply_op_address]
  by_cases haddr : cmd.dst ≠ r.address
  · simp [haddr] at h
  · simp only [haddr, if_false] at h ⊢
    cases cmd with
    | Create c => exact ⟨_, rfl⟩
    | Edit e =>
      simp only [] at h ⊢
      cases hv : e.auth.verify_authority (serializeEditOp e.op) with
      | error err => rw [hv] at h; simp at h
      | ok _ =>
        rw [hv] at h
        simp only [] at h ⊢
        rw [check_permissions_apply_op]
        cases hp : (r.check_permissions Action.Write (some (User.Key e.auth.public_key))) with
        | error err => rw [hp] at h; simp at h
        | ok _ => exact ⟨_, rfl⟩

theorem apply_ok_replay (s : RegisterStorage) (cmd : RegisterCmd) (L : List RegisterCmd)
    (r : Register) (r' : Register) (h : s.apply cmd r = Except.ok r') :
    ∃ r'', s.apply cmd (replayEdits L r) = Except.ok r'' := by
  induction L generalizing r r' with
  | nil => exact ⟨r', h⟩
  | cons c cs ih =>
    rw [replayEdits_cons]
    cases c with
    | Create cc => exact ih r r' h
    | Edit ce =>
      obtain ⟨r2, h2⟩ := apply_ok_apply_op s cmd r ce.op.edit r' h
      exact ih _ r2 h2

/-- Sequential validation of a log succeeds and produces exactly the
replay of its edits, provided every command applies to the base. -/
theorem applyAll_eq_replay (s : RegisterStorage) (L : List RegisterCmd) (r : Register)
    (h : ∀ c ∈ L, ∃ r', s.apply c r = Except.ok r') :
    s.applyAll L r = Except.ok (replayEdits L r) := by
  induction L generalizing r with
  | nil => rfl
  | cons c cs ih =>
    obtain ⟨r1, h1⟩ := h c (List.mem_cons_self c cs)
    rw [RegisterStorage.applyAll, h1]
    simp only []
    cases c with
    | Create cc =>
      have hr1 : r1 = r := by
        rw [RegisterStorage.apply.eq_def] at h1
        by_cases haddr : (RegisterCmd.Create cc).dst ≠ r.address
        · simp [haddr] at h1
        · simp only [haddr, if_false] at h1
          cases h1
          rfl
      subst hr1
      rw [replayEdits_cons_create]
      exact ih _ (fun c' hc' => h c' (List.mem_cons_of_mem _ hc'))
    | Edit ce =>
      have hr1 : r1 = r.apply_op ce.op.edit := by
        rw [RegisterStorage.apply.eq_def] at h1
        by_cases haddr : (RegisterCmd.Edit ce).dst ≠ r.address
        · simp [haddr] at h1
        · simp only [haddr, if_false] at h1
          cases hv : ce.auth.verify_authority (serializeEditOp ce.op) with
          | error err => rw [hv] at h1; simp at h1
          | ok _ =>
            rw [hv] at h1
            simp only [] at h1
            cases hp : (r.check_permissions Action.Write
                (some (User.Key ce.auth.public_key))) with
            | error err => rw [hp] at h1; simp at h1
            | ok _ => rw [hp] at h1; cases h1; rfl
      subst hr1
      rw [replayEdits_cons_edit]
      apply ih
      intro c' hc'
      obtain ⟨rc, hrc⟩ := h c' (List.mem_cons_of_mem _ hc')
      exact apply_ok_apply_op s c' _ ce.op.edit rc hrc

/-! ### `try_apply` branch lemmas -/

theorem try_apply_none_edit (s : RegisterStorage) (st : StoredRegister) (e : SignedRegisterEdit)
    (hs : st.state = none) :
    s.try_to_apply_cmd_against_register_state (RegisterCmd.Edit e) st
      = Except.ok { st with op_log := st.op_log ++ [RegisterCmd.Edit e] } := by
  rw [RegisterStorage.try_to_apply_cmd_against_register_state.eq_def, hs]

theorem try_apply_some_create (s : RegisterStorage) (st : StoredRegister)
    (c : SignedRegisterCreate) (r : Register) (hs : st.state = some r) :
    s.try_to_apply_cmd_against_register_state (RegisterCmd.Create c) st = Except.ok st := by
  rw [RegisterStorage.try_to_apply_cmd_against_register_state.eq_def, hs]

theorem try_apply_some_edit (s : RegisterStorage) (st : StoredRegister)
    (e : SignedRegisterEdit) (r : Register) (hs : st.state = some r) :
    s.try_to_apply_cmd_against_register_state (RegisterCmd.Edit e) st
      = match s.apply (RegisterCmd.Edit e) r with
        | .error err => Except.error err
        | .ok reg' =>
          Except.ok { st with state := some reg',
                              op_log := st.op_log ++ [RegisterCmd.Edit e] } := by
  rw [RegisterStorage.try_to_apply_cmd_against_register_state.eq_def, hs]

theorem try_apply_none_create (s : RegisterStorage) (st : StoredRegister)
    (c : SignedRegisterCreate) (hs : st.state = none) :
    s.try_to_apply_cmd_against_register_state (RegisterCmd.Create c) st
      = match c.auth.verify_authority (serializeCreateOp c.op) with
        | .error e => Except.error e
        | .ok _ =>
          match s.applyAll st.op_log
              (Register.new c.op.policy.owner c.op.name c.op.tag c.op.policy) with
          | .error e => Except.error e
          | .ok reg' =>
            Except.ok { st with state := some reg',
                                op_log := st.op_log ++ [RegisterCmd.Create c] } := by
  rw [RegisterStorage.try_to_apply_cmd_against_register_state.eq_def, hs]

theorem updateStep_error (s : RegisterStorage) (acc : RegisterLog × StoredRegister)
    (cmd : RegisterCmd) (h : isError (s.try_to_apply_cmd_against_register_state cmd acc.2)) :
    s.updateStep acc cmd = acc := by
  rw [RegisterStorage.updateStep]
  cases hta : s.try_to_apply_cmd_against_register_state cmd acc.2 with
  | error e => rfl
  | ok st' => rw [hta] at h; simp [isError] at h

theorem updateFold_all_fail (s : RegisterStorage) (st0 : StoredRegister)
    (ops : List RegisterCmd) (batch : RegisterLog)
    (h : ∀ cmd ∈ ops, isError (s.try_to_apply_cmd_against_register_state cmd st0)) :
    ops.foldl (s.updateStep) (batch, st0) = (batch, st0) := by
  induction ops generalizing batch with
  | nil => rfl
  | cons c cs ih =>
    rw [List.foldl_cons,
      updateStep_error s (batch, st0) c (h c (List.mem_cons_self c cs)),
      ih batch (fun cmd hc => h cmd (List.mem_cons_of_mem c hc))]

theorem verify_authority_error (a : DataAuthority) (payload : Bytes)
    (h : a.signature ≠ blsSign a.public_key payload) :
    a.verify_authority payload = Except.error Error.InvalidSignature := by
  rw [DataAuthority.verify_authority, if_neg h]

theorem write_log_ok (s : RegisterStorage) (fs : FS) (cmd : RegisterCmd) (p : FsPath) :
    (s.write_log_to_disk fs [cmd] p).1 = Except.ok () := by
  rw [write_log_single]

/-! ## C5 — `write` atomicity: every error surfaces with nothing persisted. -/

/-- C5: if `write` returns an error — in the model all validation and
application errors of `try_to_apply_cmd_against_register_state` and no
others — the error surfaces unchanged and the filesystem (files and
directories alike) is exactly as before the call. -/
theorem C5_write_atomic (s : RegisterStorage) (fs : FS) (cmd : RegisterCmd) (err : Error)
    (h : (s.write fs cmd).1 = Except.error err) :
    s.write fs cmd = (Except.error err, fs)
      ∧ s.try_to_apply_cmd_against_register_state cmd (loadStored s fs cmd.dst)
          = Except.error err := by
  rw [write_eq] at h ⊢
  cases hta : s.try_to_apply_cmd_against_register_state cmd (loadStored s fs cmd.dst) with
  | error e =>
    rw [hta] at h
    simp only [] at h
    cases h
    exact ⟨rfl, rfl⟩
  | ok st' =>
    rw [hta] at h
    simp only [] at h
    rw [write_log_ok] at h
    cases h

/-- C5 witness: an invalid-signature `Create` on an empty store errors
and leaves the filesystem empty. -/
theorem C5_witness :
    (wStore.write wFs0 wBadCreate).1 = Except.error Error.InvalidSignature
      ∧ wStore.write wFs0 wBadCreate = (Except.error Error.InvalidSignature, wFs0) :=
  ⟨by decide, (C5_write_atomic wStore wFs0 wBadCreate Error.InvalidSignature (by decide)).1⟩

/-! ## C3 — successful `try_apply` appends the op, except `(Some, Create)`. -/

/-- C3 counterexample: with the Register state already present, a
`Create` command succeeds but is NOT appended to `op_log` — the source's
`(Some(_), Create)` arm returns early, skipping the push that the claim
asserts happens in all four cases. -/
theorem C3_counterexample :
    wStore.try_to_apply_cmd_against_register_state wCreate ⟨some wRegister, [], []⟩
        = Except.ok ⟨some wRegister, [], []⟩
      ∧ (⟨some wRegister, [], []⟩ : StoredRegister).op_log = [] := by
  constructor
  · exact try_apply_some_create wStore ⟨some wRegister, [], []⟩ _ wRegister rfl
  · rfl

/-- C3 amended: a successful `try_to_apply_cmd_against_register_state`
appends the command to `op_log` (with duplicates not filtered: the
append happens even if the command is already in the log) in three of
the four `(state, kind)` cases; in the fourth — state present and a
`Create` — the command is dropped and the stored register is returned
unchanged. -/
theorem C3_append (s : RegisterStorage) (cmd : RegisterCmd) (st st' : StoredRegister)
    (h : s.try_to_apply_cmd_against_register_state cmd st = Except.ok st') :
    (st.state.isSome ∧ isCreateCmd cmd ∧ st' = st)
      ∨ st'.op_log = st.op_log ++ [cmd] :=
  try_apply_op_log s cmd st st' h

/-- C3 witness: an edit against an existing state is appended, twice in
a row, without duplicate filtering. -/
theorem C3_witness :
    wStore.try_to_apply_cmd_against_register_state wEdit ⟨none, [wEdit], []⟩
        = Except.ok ⟨none, [wEdit, wEdit], []⟩
      ∧ ((⟨none, [wEdit, wEdit], []⟩ : StoredRegister).op_log
          = (⟨none, [wEdit], []⟩ : StoredRegister).op_log ++ [wEdit]
        ∨ (⟨none, [wEdit], []⟩ : StoredRegister).state.isSome ∧ isCreateCmd wEdit
            ∧ (⟨none, [wEdit, wEdit], []⟩ : StoredRegister) = ⟨none, [wEdit], []⟩) := by
  constructor
  · decide
  · rcases C3_append wStore wEdit ⟨none, [wEdit], []⟩ ⟨none, [wEdit, wEdit], []⟩ (by decide) with
      hcase | hlog
    · exact Or.inr ⟨hcase.1, hcase.2.1, hcase.2.2⟩
    · exact Or.inl hlog

/-! ## C10 — empty batches touch nothing on disk. -/

/-- C10: `write_log_to_disk` with an empty log returns `Ok` with the
filesystem untouched (no directory creation), and consequently an
`update` whose every replicated op fails validation against the loaded
state returns `Ok` and leaves the filesystem exactly unchanged — no
register directory is created for a previously unseen address. -/
theorem C10_empty_frame (s : RegisterStorage) (fs : FS) (p : FsPath)
    (data : ReplicatedRegisterLog)
    (h : ∀ cmd ∈ data.op_log,
      isError (s.try_to_apply_cmd_against_register_state cmd (loadStored s fs data.address))) :
    s.write_log_to_disk fs [] p = (Except.ok (), fs)
      ∧ s.update fs data = (Except.ok (), fs) := by
  refine ⟨rfl, ?_⟩
  rw [RegisterStorage.update, try_load_eq]
  simp only []
  rw [updateFold_all_fail s (loadStored s fs data.address) data.op_log [] h]
  rfl

/-- C10 witness: an update consisting of one invalid-signature `Create`
for a fresh address is dropped entirely; the store stays empty. -/
theorem C10_witness :
    wStore.write_log_to_disk wFs0 [] ["d"] = (Except.ok (), wFs0)
      ∧ wStore.update wFs0 ⟨wAddr, [wBadCreate]⟩ = (Except.ok (), wFs0) :=
  C10_empty_frame wStore wFs0 ["d"] ⟨wAddr, [wBadCreate]⟩ (by decide)

/-! ## C1 — authentication. -/

/-- C1 counterexample: an `Edit` with an invalid signature arriving
while no `Create` is known for its address is NOT rejected: `write`
buffers it without any signature verification, returns `Ok`, and
persists it to disk. -/
theorem C1_counterexample :
    cmdSigInvalid wBadEdit
      ∧ (wStore.write wFs0 wBadEdit).1 = Except.ok ()
      ∧ (wStore.write wFs0 wBadEdit).2.lookupFile
          (regDirPath wStore wAddr ++ [opIdStr wBadEdit]) = some (serializeCmd wBadEdit) := by
  exact ⟨by decide, by decide, by decide⟩

/-- C1 amended: an operation whose signature does not verify is rejected
exactly where the engine verifies signatures: a `Create` applied while
no state is present, and an `Edit` applied while the state is present.
There `try_apply` errors, `write` surfaces the error and persists
nothing, and `update` drops the op from the batch.  (An `Edit` arriving
before its `Create`, and a `Create` arriving when the Register already
exists, are accepted and persisted without verification — the
counterexample above.) -/
theorem C1_auth (s : RegisterStorage) (cmd : RegisterCmd) (st : StoredRegister)
    (hbad : cmdSigInvalid cmd)
    (hcase : (st.state = none ∧ isCreateCmd cmd) ∨ (st.state.isSome ∧ isEditCmd cmd)) :
    (∃ err, s.try_to_apply_cmd_against_register_state cmd st = Except.error err)
      ∧ (∀ fs, loadStored s fs cmd.dst = st →
          ∃ err, s.write fs cmd = (Except.error err, fs))
      ∧ ∀ batch, s.updateStep (batch, st) cmd = (batch, st) := by
  have h1 : ∃ err, s.try_to_apply_cmd_against_register_state cmd st = Except.error err := by
    rcases hcase with ⟨hnone, hcreate⟩ | ⟨hsome, hedit⟩
    · cases cmd with
      | Edit e => exact absurd hcreate (by simp [isCreateCmd])
      | Create c =>
        refine ⟨Error.InvalidSignature, ?_⟩
        rw [try_apply_none_create s st c hnone,
          verify_authority_error c.auth (serializeCreateOp c.op) hbad]
    · cases cmd with
      | Create c => exact absurd hedit (by simp [isEditCmd])
      | Edit e =>
        obtain ⟨r, hr⟩ := Option.isSome_iff_exists.mp hsome
        have happly : ∃ err, s.apply (RegisterCmd.Edit e) r = Except.error err := by
          rw [RegisterStorage.apply.eq_def]
          by_cases haddr : (RegisterCmd.Edit e).dst ≠ r.address
          · exact ⟨_, by rw [if_pos haddr]⟩
          · refine ⟨Error.InvalidSignature, ?_⟩
            rw [if_neg haddr]
            simp only []
            rw [verify_authority_error e.auth (serializeEditOp e.op) hbad]
        obtain ⟨err, herr⟩ := happly
        refine ⟨err, ?_⟩
        rw [try_apply_some_edit s st e r hr, herr]
  obtain ⟨err, herr⟩ := h1
  refine ⟨⟨err, herr⟩, ?_, ?_⟩
  · intro fs heq
    refine ⟨err, ?_⟩
    rw [write_eq, heq, herr]
  · intro batch
    exact updateStep_error s (batch, st) cmd (by simp [isError, herr])

/-- C1 witness: an invalid-signature `Create` on an empty store is
rejected by `try_apply`, by `write` (with nothing persisted), and
dropped by `update`'s batch step. -/
theorem C1_witness :
    (∃ err, wStore.try_to_apply_cmd_against_register_state wBadCreate
        (loadStored wStore wFs0 wBadCreate.dst) = Except.error err)
      ∧ (∃ err, wStore.write wFs0 wBadCreate = (Except.error err, wFs0))
      ∧ ∀ batch, wStore.updateStep (batch, loadStored wStore wFs0 wBadCreate.dst) wBadCreate
          = (batch, loadStored wStore wFs0 wBadCreate.dst) := by
  obtain ⟨h1, h2, h3⟩ := C1_auth wStore wBadCreate (loadStored wStore wFs0 wBadCreate.dst)
    (by decide) (Or.inl ⟨by decide, by decide⟩)
  exact ⟨h1, h2 wFs0 rfl, h3⟩

/-! ## C8 — loader fault tolerance. -/

/-- Adding a file whose bytes fail to deserialize leaves the decoded log
unchanged. -/
theorem decodedCmds_writeFile_corrupt (fs : FS) (dir : FsPath) (nm : String) (bytes : Bytes)
    (hlk : fs.lookupFile (dir ++ [nm]) = none) (hdec : deserializeCmd bytes = none) :
    decodedCmds (fs.writeFile (dir ++ [nm]) bytes) dir = decodedCmds fs dir := by
  have hchild : (dir ++ [nm]).length = dir.length + 1 ∧ (dir ++ [nm]).take dir.length = dir := by
    exact ⟨by simp, by simp [List.take_left]⟩
  rw [decodedCmds, writeFile_listFiles, if_pos hchild, List.filterMap_append]
  have hrest : List.filterMap
      (fun p => ((fs.writeFile (dir ++ [nm]) bytes).lookupFile p).bind deserializeCmd)
      [dir ++ [nm]] = [] := by
    simp [List.filterMap_cons, writeFile_lookup_self fs (dir ++ [nm]) bytes hlk, hdec]
  rw [hrest, List.append_nil]
  apply List.filterMap_congr
  intro q hq
  have hne : q ≠ dir ++ [nm] := by
    intro heq
    have := lookup_isSome_of_mem_map_fst fs q (mem_files_of_mem_listFiles fs dir q hq)
    rw [heq, hlk] at this
    simp at this
  rw [writeFile_lookup_other fs (dir ++ [nm]) q bytes hne]

/-- C8: the loader never returns an error, and its result is determined
solely by the files that decode successfully: filesystems that agree on
the decoded command sequence (and on the directory's existence) load to
the same `StoredRegister`; moreover appending a file that fails to
deserialize changes neither the decoded sequence nor the loaded result.
Files that fail to read or decode are thus skipped without poisoning the
Register. -/
theorem C8_loader_fault_tolerant (s : RegisterStorage) (fs1 fs2 : FS) (addr : RegisterAddress)
    (hdec : decodedCmds fs1 (regDirPath s addr) = decodedCmds fs2 (regDirPath s addr))
    (hex1 : fs1.pathExists (regDirPath s addr) = fs2.pathExists (regDirPath s addr)) :
    (∃ st, s.open_reg_log_from_disk fs1 addr = Except.ok st)
      ∧ s.open_reg_log_from_disk fs1 addr = s.open_reg_log_from_disk fs2 addr
      ∧ s.try_load_stored_register fs1 addr = s.try_load_stored_register fs2 addr := by
  have hload : loadStored s fs1 addr = loadStored s fs2 addr := by
    rw [loadStored, loadStored, hdec, hex1]
  refine ⟨⟨_, open_reg_eq s fs1 addr⟩, ?_, ?_⟩
  · rw [open_reg_eq, open_reg_eq, hdec, hex1]
  · rw [try_load_eq, try_load_eq, hload]

/-- C8 witness: a register directory holding one valid `Create` and one
corrupt file loads exactly like the directory without the corrupt file. -/
theorem C8_witness :
    decodedCmds
        (FS.mk [(regDirPath wStore wAddr ++ ["a"], serializeCmd wCreate),
                (regDirPath wStore wAddr ++ ["b"], [999])] [regDirPath wStore wAddr])
        (regDirPath wStore wAddr)
      = decodedCmds
          (FS.mk [(regDirPath wStore wAddr ++ ["a"], serializeCmd wCreate)]
            [regDirPath wStore wAddr])
          (regDirPath wStore wAddr)
      ∧ wStore.try_load_stored_register
          (FS.mk [(regDirPath wStore wAddr ++ ["a"], serializeCmd wCreate),
                  (regDirPath wStore wAddr ++ ["b"], [999])] [regDirPath wStore wAddr]) wAddr
        = wStore.try_load_stored_register
            (FS.mk [(regDirPath wStore wAddr ++ ["a"], serializeCmd wCreate)]
              [regDirPath wStore wAddr]) wAddr :=
  ⟨by decide,
   (C8_loader_fault_tolerant wStore _ _ wAddr (by decide) (by decide)).2.2⟩

/-! ## C7 — the first `Create` on disk wins. -/

theorem firstCreateRegister_edits (l : List RegisterCmd) (h : ∀ c ∈ l, isEditCmd c) :
    firstCreateRegister l = none := by
  induction l with
  | nil => rfl
  | cons c cs ih =>
    cases c with
    | Create cc => exact absurd (h _ (List.mem_cons_self _ _)) (by simp [isEditCmd])
    | Edit ce => exact ih (fun c' hc' => h c' (List.mem_cons_of_mem _ hc'))

/-- C7: when the decoded contents of a register directory contain two
`Create` operations, the loader materializes the Register of the first
one in enumeration order and keeps it; the later `Create` — whether it
builds an equal Register or a different one — is not used to replace
it. -/
theorem C7_first_create_wins (s : RegisterStorage) (fs : FS) (addr : RegisterAddress)
    (pre mid post : List RegisterCmd) (c1 c2 : SignedRegisterCreate)
    (hdec : decodedCmds fs (regDirPath s addr)
        = pre ++ RegisterCmd.Create c1 :: (mid ++ RegisterCmd.Create c2 :: post))
    (hpre : ∀ c ∈ pre, isEditCmd c)
    (hex1 : fs.pathExists (regDirPath s addr) = true) :
    ∃ st, s.open_reg_log_from_disk fs addr = Except.ok st
      ∧ st.state
          = some (Register.new c1.op.policy.owner c1.op.name c1.op.tag c1.op.policy) := by
  refine ⟨_, open_reg_eq s fs addr, ?_⟩
  rw [if_neg (by rw [hex1]; exact fun hc => hc rfl)]
  simp only []
  rw [hdec, firstCreateRegister_append, firstCreateRegister_edits pre hpre]
  simp [firstCreateRegister]

/-- C7 witness: two cross-signed `Create`s (different owners) in one
directory; the loader keeps the first. -/
theorem C7_witness :
    decodedCmds
        (FS.mk [(regDirPath wStore wAddr ++ ["a"], serializeCmd wCreate),
                (regDirPath wStore wAddr ++ ["b"], serializeCmd wCreateB)]
          [regDirPath wStore wAddr])
        (regDirPath wStore wAddr)
      = [] ++ RegisterCmd.Create ⟨wCreateOp, ⟨7, blsSign 7 (serializeCreateOp wCreateOp)⟩⟩
          :: ([] ++ RegisterCmd.Create ⟨wCreateOpB, ⟨8, blsSign 8 (serializeCreateOp wCreateOpB)⟩⟩
            :: [])
      ∧ ∃ st, wStore.open_reg_log_from_disk
          (FS.mk [(regDirPath wStore wAddr ++ ["a"], serializeCmd wCreate),
                  (regDirPath wStore wAddr ++ ["b"], serializeCmd wCreateB)]
            [regDirPath wStore wAddr]) wAddr = Except.ok st
        ∧ st.state = some (Register.new (User.Key 7) 5 3 wPolicy) :=
  ⟨by decide,
   C7_first_create_wins wStore _ wAddr [] [] []
     ⟨wCreateOp, ⟨7, blsSign 7 (serializeCreateOp wCreateOp)⟩⟩
     ⟨wCreateOpB, ⟨8, blsSign 8 (serializeCreateOp wCreateOpB)⟩⟩
     (by decide) (by decide) (by decide)⟩

/-! ## C2 — the operation id.

Sanity: the sponge implementation reproduces the FIPS 202 test vectors
for the empty message. -/

theorem sha3_256_empty_vector : tinySha3 256 [] 32 =
    [0xa7, 0xff, 0xc6, 0xf8, 0xbf, 0x1e, 0xd7, 0x66, 0x51, 0xc1, 0x47, 0x56, 0xa0, 0x61, 0xd6,
     0x62, 0xf5, 0x80, 0xff, 0x4d, 0xe4, 0x3b, 0x49, 0xfa, 0x82, 0xd8, 0x0a, 0x4b, 0x80, 0xf8,
     0x43, 0x4a] := by decide

theorem sha3_512_empty_vector : sha3_512 [] =
    [0xa6, 0x9f, 0x73, 0xcc, 0xa2, 0x3a, 0x9a, 0xc5, 0xc8, 0xb5, 0x67, 0xdc, 0x18, 0x5a, 0x75,
     0x6e, 0x97, 0xc9, 0x82, 0x16, 0x4f, 0xe2, 0x58, 0x59, 0xe0, 0xd1, 0xdc, 0xc1, 0x47, 0x5c,
     0x80, 0xa6, 0x15, 0xb2, 0x12, 0x3a, 0xf1, 0xf5, 0xf9, 0x4c, 0x11, 0xe3, 0xe9, 0x40, 0x2c,
     0x3a, 0xc5, 0x58, 0xf5, 0x00, 0x19, 0x9d, 0x95, 0xb6, 0xd3, 0xe3, 0x01, 0x75, 0x85, 0x86,
     0x28, 0x1d, 0xcd, 0x26] := by decide

theorem natToLEBytes_lt (n k : Nat) : ∀ b ∈ natToLEBytes n k, b < 256 := by
  induction k generalizing n with
  | zero => simp [natToLEBytes]
  | succ k ih =>
    intro b hb
    rw [natToLEBytes] at hb
    rcases List.mem_cons.mp hb with rfl | hb
    · omega
    · exact ih (n / 256) b hb

theorem lanesToBytes_length (A : List Nat) : (lanesToBytes A).length = 200 := by
  rw [lanesToBytes, List.length_flatten, List.map_map]
  have : (List.map (List.length ∘ fun i => natToLEBytes (lane A i) 8) (List.range 25))
      = List.replicate 25 8 := by
    rw [List.eq_replicate_iff]
    refine ⟨by simp, ?_⟩
    intro b hb
    simp only [List.mem_map, Function.comp] at hb
    obtain ⟨i, _, rfl⟩ := hb
    exact natToLEBytes_length _ 8
  rw [this, List.sum_replicate]
  rfl

theorem lanesToBytes_lt (A : List Nat) : ∀ b ∈ lanesToBytes A, b < 256 := by
  intro b hb
  rw [lanesToBytes, List.mem_flatten] at hb
  obtain ⟨l, hl, hb⟩ := hb
  simp only [List.mem_map] at hl
  obtain ⟨i, _, rfl⟩ := hl
  exact natToLEBytes_lt _ 8 b hb

theorem squeezeGo_lt (rate : Nat) (A : List Nat) (blocks : Nat) :
    ∀ b ∈ squeezeGo rate A blocks, b < 256 := by
  induction blocks generalizing A with
  | zero => simp [squeezeGo]
  | succ k ih =>
    intro b hb
    rw [squeezeGo, List.mem_append] at hb
    rcases hb with hb | hb
    · exact lanesToBytes_lt A b (List.mem_of_mem_take hb)
    · exact ih (keccakF A) b hb

theorem tinySha3_lt (bits : Nat) (d : Bytes) (outLen : Nat) :
    ∀ b ∈ tinySha3 bits d outLen, b < 256 := by
  intro b hb
  rw [tinySha3] at hb
  exact squeezeGo_lt _ _ _ b (List.mem_of_mem_take hb)

theorem tinySha3_256_64_length (d : Bytes) : (tinySha3 256 d 64).length = 64 := by
  have h1 : tinySha3 256 d 64
      = (squeezeGo 136 ((chunksOf 136 (sha3Pad 136 d)).foldl
          (fun s block => keccakF (absorbBlock s block)) (List.replicate 25 0)) 1).take 64 := by
    rfl
  rw [h1, squeezeGo, squeezeGo, List.append_nil, List.length_take, List.length_take,
    lanesToBytes_length]
  rfl

theorem hexEncode_length (bs : Bytes) : (hexEncode bs).length = 2 * bs.length := by
  rw [hexEncode]
  show (List.flatten _).length = 2 * bs.length
  induction bs with
  | nil => rfl
  | cons b l ih =>
    simp only [List.map_cons, List.flatten_cons, List.length_append, List.length_cons,
      List.length_nil, List.length_cons] at ih ⊢
    omega

theorem hexDigit_mem (n : Nat) (h : n < 16) : hexDigit n ∈ lowerHexChars := by
  revert h
  revert n
  decide

theorem hexEncode_chars (bs : Bytes) (h : ∀ b ∈ bs, b < 256) :
    ∀ ch ∈ (hexEncode bs).data, ch ∈ lowerHexChars := by
  intro ch hch
  rw [hexEncode] at hch
  replace hch : ch ∈ (bs.map (fun b => [hexDigit (b / 16), hexDigit (b % 16)])).flatten := hch
  rw [List.mem_flatten] at hch
  obtain ⟨l, hl, hch⟩ := hch
  simp only [List.mem_map] at hl
  obtain ⟨b, hb, rfl⟩ := hl
  have hblt := h b hb
  rcases List.mem_cons.mp hch with rfl | hch
  · exact hexDigit_mem _ (by omega)
  · rcases List.mem_cons.mp hch with rfl | hch
    · exact hexDigit_mem _ (by omega)
    · simp at hch

/-- C2 counterexample: the on-disk operation id is NOT the SHA3-512
digest of the serialized command — the source builds the hasher with
`Sha3::v256()` (rate 136), not `Sha3::v512()` (rate 72), and only the
output buffer is 64 bytes.  At this concrete command the two differ. -/
theorem C2_counterexample :
    register_op_id wCreate ≠ Except.ok (hexEncode (sha3_512 (serializeCmd wCreate))) := by
  decide

/-- C2 amended: the operation id used as the on-disk filename is the
lowercase hex encoding of the 64 bytes squeezed from the SHA3-256-rate
sponge (`tiny_keccak`'s `Sha3::v256()` finalized into a 64-byte buffer)
over the command's serialized bytes — not SHA3-512.  It is always 128
lowercase-hex characters, and equal serialized bytes give equal ids. -/
theorem C2_op_id (cmd : RegisterCmd) :
    register_op_id cmd = Except.ok (opIdStr cmd)
      ∧ opIdStr cmd = hexEncode (tinySha3 256 (serializeCmd cmd) 64)
      ∧ (opIdStr cmd).length = 128
      ∧ (∀ ch ∈ (opIdStr cmd).data, ch ∈ lowerHexChars)
      ∧ ∀ cmd' : RegisterCmd, serializeCmd cmd = serializeCmd cmd' →
          register_op_id cmd = register_op_id cmd' := by
  refine ⟨rfl, rfl, ?_, ?_, ?_⟩
  · rw [opIdStr, hexEncode_length, tinySha3_256_64_length]
  · exact hexEncode_chars _ (tinySha3_lt 256 (serializeCmd cmd) 64)
  · intro cmd' heq
    rw [register_op_id, register_op_id, heq]

/-- C2 witness: the id of the concrete `Create` has the stated shape. -/
theorem C2_witness :
    register_op_id wCreate = Except.ok (opIdStr wCreate)
      ∧ (opIdStr wCreate).length = 128
      ∧ register_op_id wCreate = register_op_id wCreate := by
  obtain ⟨h1, _, h3, _, h5⟩ := C2_op_id wCreate
  exact ⟨h1, h3, h5 wCreate rfl⟩

/-! ## C6 — `remove`. -/

/-- `remove_file` on an existing directory fails and changes nothing. -/
theorem remove_dir_error (s : RegisterStorage) (fs : FS) (addr : RegisterAddress)
    (h : regDirPath s addr ∈ fs.dirs) :
    s.remove fs addr = (Except.error Error.IoError, fs) := by
  rw [RegisterStorage.remove, address_to_filepath_eq]
  simp only []
  rw [FS.removeFile, if_pos h]

/-- C6: the claim fails on the code.  `address_to_filepath` names the
per-register DIRECTORY that `write_log_to_disk` creates and fills with
op files, but `remove` calls `remove_file` on it, which fails on a
directory.  Concretely: after a successful `write` of a valid `Create`,
`remove` of that address returns an IO error and deletes nothing — the
register's directory and op file are still present. -/
theorem C6_remove_bug :
    (wStore.write wFs0 wCreate).1 = Except.ok ()
      ∧ regDirPath wStore wAddr ∈ (wStore.write wFs0 wCreate).2.dirs
      ∧ wStore.remove (wStore.write wFs0 wCreate).2 wAddr
          = (Except.error Error.IoError, (wStore.write wFs0 wCreate).2)
      ∧ ((wStore.write wFs0 wCreate).2.lookupFile
          (regDirPath wStore wAddr ++ [opIdStr wCreate])).isSome := by
  refine ⟨by decide, by decide, ?_, by decide⟩
  exact remove_dir_error wStore (wStore.write wFs0 wCreate).2 wAddr (by decide)

/-! ## C9 — write idempotence. -/

/-- On a store whose register directory is consistent (no orphan files
under a non-existing directory), the loaded `StoredRegister` has a
single uniform shape. -/
theorem loadStored_char (s : RegisterStorage) (fs : FS) (addr : RegisterAddress)
    (hclean : fs.pathExists (regDirPath s addr) = false →
      decodedCmds fs (regDirPath s addr) = []) :
    loadStored s fs addr
      = ⟨(firstCreateRegister (decodedCmds fs (regDirPath s addr))).map
            (replayEdits (decodedCmds fs (regDirPath s addr))),
          decodedCmds fs (regDirPath s addr), regDirPath s addr⟩ := by
  rw [loadStored]
  by_cases hex1 : fs.pathExists (regDirPath s addr)
  · simp [hex1]
  · replace hex1 : fs.pathExists (regDirPath s addr) = false := by
      simpa using hex1
    simp [hex1, hclean hex1, firstCreateRegister]

theorem decodedCmds_createDirAll (fs : FS) (p dir : FsPath) :
    decodedCmds (fs.createDirAll p) dir = decodedCmds fs dir := rfl

theorem regDirPath_ne_nil (s : RegisterStorage) (addr : RegisterAddress) :
    regDirPath s addr ≠ [] := by
  simp [regDirPath]

theorem firstCreateRegister_singleton_edit (e : SignedRegisterEdit) :
    firstCreateRegister [RegisterCmd.Edit e] = none := rfl

theorem firstCreateRegister_append_edit (l : List RegisterCmd) (e : SignedRegisterEdit) :
    firstCreateRegister (l ++ [RegisterCmd.Edit e]) = firstCreateRegister l := by
  rw [firstCreateRegister_append, firstCreateRegister_singleton_edit]
  cases firstCreateRegister l <;> rfl

theorem firstCreateRegister_append_create (l : List RegisterCmd) (c : SignedRegisterCreate) :
    (firstCreateRegister (l ++ [RegisterCmd.Create c])).isSome := by
  rw [firstCreateRegister_append]
  cases firstCreateRegister l <;> simp [firstCreateRegister]

theorem apply_of_try_apply_some_edit (s : RegisterStorage) (st st' : StoredRegister)
    (e : SignedRegisterEdit) (r : Register) (hs : st.state = some r)
    (h : s.try_to_apply_cmd_against_register_state (RegisterCmd.Edit e) st = Except.ok st') :
    ∃ reg', s.apply (RegisterCmd.Edit e) r = Except.ok reg' := by
  rw [try_apply_some_edit s st e r hs] at h
  cases ha : s.apply (RegisterCmd.Edit e) r with
  | error err => rw [ha] at h; simp at h
  | ok reg' => exact ⟨reg', rfl⟩

/-- C9: `write(op); write(op)` equals `write(op)`.  For every
well-formed command whose first `write` succeeds (on a store where files
under the register directory imply the directory exists), the second
`write` succeeds and leaves the filesystem — hence the op-file set and
every subsequently reconstructed Register state — bit-for-bit
identical: the content-addressed file already exists and is skipped. -/
theorem C9_write_idempotent (s : RegisterStorage) (fs fs1 : FS) (cmd : RegisterCmd)
    (hwf : cmd.wf)
    (hclean : fs.pathExists (regDirPath s cmd.dst) = false →
      decodedCmds fs (regDirPath s cmd.dst) = [])
    (h1 : s.write fs cmd = (Except.ok (), fs1)) :
    s.write fs1 cmd = (Except.ok (), fs1) := by
  have hpathne := regDirPath_ne_nil s cmd.dst
  set path := regDirPath s cmd.dst with hpathdef
  set opfile := path ++ [opIdStr cmd] with hopfiledef
  set dec := decodedCmds fs path with hdecdef
  rw [write_eq, loadStored_char s fs cmd.dst hclean] at h1
  set st0 : StoredRegister :=
    ⟨(firstCreateRegister dec).map (replayEdits dec), dec, path⟩ with hst0def
  cases hta : s.try_to_apply_cmd_against_register_state cmd st0 with
  | error e => rw [hta] at h1; simp at h1
  | ok st' =>
    rw [hta] at h1
    simp only [] at h1
    have hpath' : st'.op_log_path = path := try_apply_path s cmd st0 st' hta
    rw [hpath', write_log_single] at h1
    have hfs1 : fs1 = if (fs.createDirAll path).pathExists opfile then fs.createDirAll path
        else (fs.createDirAll path).writeFile opfile (serializeCmd cmd) := by
      have := congrArg Prod.snd h1
      simpa using this.symm
    -- Structural facts about fs1.
    have hdirs1 : ∀ q ∈ fsPathPrefixes path, q ∈ fs1.dirs := by
      intro q hq
      rw [hfs1]
      split
      · exact (createDirAll_dirs_mem fs path q).mpr (Or.inr hq)
      · rw [writeFile_dirs]
        exact (createDirAll_dirs_mem fs path q).mpr (Or.inr hq)
    have hex1 : fs1.pathExists path = true := by
      have hmem : path ∈ fs1.dirs := hdirs1 path (mem_fsPathPrefixes_self path hpathne)
      simp [FS.pathExists, hmem]
    have hnoop1 : fs1.createDirAll path = fs1 := createDirAll_noop fs1 path hdirs1
    have hopexists1 : fs1.pathExists opfile = true := by
      rw [hfs1]
      split
      · assumption
      · rename_i hnotex
        have hlknone : (fs.createDirAll path).lookupFile opfile = none := by
          cases hlk : (fs.createDirAll path).lookupFile opfile with
          | none => rfl
          | some b =>
            exfalso
            apply hnotex
            simp [FS.pathExists, hlk]
        have := writeFile_lookup_self (fs.createDirAll path) opfile (serializeCmd cmd) hlknone
        simp [FS.pathExists, this]
    -- The decoded log of fs1 extends the one of fs by the command iff written.
    have hdec1 : decodedCmds fs1 path = dec
        ∨ decodedCmds fs1 path = dec ++ [cmd] := by
      rw [hfs1]
      split
      · left
        rw [decodedCmds_createDirAll]
      · right
        rename_i hnotex
        have hlknone : (fs.createDirAll path).lookupFile opfile = none := by
          cases hlk : (fs.createDirAll path).lookupFile opfile with
          | none => rfl
          | some b => exfalso; apply hnotex; simp [FS.pathExists, hlk]
        rw [hopfiledef]
        rw [decodedCmds_writeFile (fs.createDirAll path) path (opIdStr cmd) (serializeCmd cmd)
          cmd hlknone (deserializeCmd_serializeCmd cmd hwf), decodedCmds_createDirAll]
    -- The second load.
    have hload1 : loadStored s fs1 cmd.dst
        = ⟨(firstCreateRegister (decodedCmds fs1 path)).map (replayEdits (decodedCmds fs1 path)),
            decodedCmds fs1 path, path⟩ :=
      loadStored_char s fs1 cmd.dst (fun hfalse => by rw [hex1] at hfalse; cases hfalse)
    -- The second application succeeds.
    have happly2 : ∃ st'', s.try_to_apply_cmd_against_register_state cmd
        (loadStored s fs1 cmd.dst) = Except.ok st'' := by
      rcases hdec1 with hsame | hgrew
      · rw [hload1, hsame]
        exact ⟨st', hta⟩
      · rw [hload1, hgrew]
        cases cmd with
        | Create c =>
          have hissome := firstCreateRegister_append_create dec c
          obtain ⟨r1, hr1⟩ := Option.isSome_iff_exists.mp hissome
          refine ⟨_, try_apply_some_create s _ c
            (replayEdits (dec ++ [RegisterCmd.Create c]) r1) ?_⟩
          show Option.map (replayEdits (dec ++ [RegisterCmd.Create c]))
            (firstCreateRegister (dec ++ [RegisterCmd.Create c])) = _
          rw [hr1]
          rfl
        | Edit e =>
          rw [firstCreateRegister_append_edit]
          cases hfc : firstCreateRegister dec with
          | none =>
            exact ⟨_, try_apply_none_edit s _ e (by simp)⟩
          | some r0 =>
            have hst0state : st0.state = some (replayEdits dec r0) := by
              rw [hst0def]
              simp [hfc]
            obtain ⟨reg', hreg'⟩ :=
              apply_of_try_apply_some_edit s st0 st' e (replayEdits dec r0) hst0state hta
            have hreplay : replayEdits (dec ++ [RegisterCmd.Edit e]) r0
                = (replayEdits dec r0).apply_op e.op.edit := by
              rw [replayEdits_append, replayEdits_cons_edit, replayEdits_nil]
            obtain ⟨reg2, hreg2⟩ :=
              apply_ok_apply_op s (RegisterCmd.Edit e) (replayEdits dec r0) e.op.edit reg' hreg'
            have heq := try_apply_some_edit s
              ⟨Option.map (replayEdits (dec ++ [RegisterCmd.Edit e])) (some r0),
               dec ++ [RegisterCmd.Edit e], path⟩ e
              (replayEdits (dec ++ [RegisterCmd.Edit e]) r0) (by simp)
            rw [hreplay, hreg2] at heq
            exact ⟨_, heq⟩
    obtain ⟨st'', hst''⟩ := happly2
    rw [write_eq, hst'']
    simp only []
    have hpath'' : st''.op_log_path = path := by
      rw [try_apply_path s cmd _ st'' hst'', hload1]
    rw [hpath'', write_log_single, hnoop1, hopexists1]
    simp

/-- C9 witness: writing the concrete `Create` twice on an empty store;
the second call returns `Ok` and the filesystem is unchanged. -/
theorem C9_witness :
    wStore.write ((wStore.write wFs0 wCreate).2) wCreate
      = (Except.ok (), (wStore.write wFs0 wCreate).2) := by
  have h : wStore.write wFs0 wCreate = (Except.ok (), (wStore.write wFs0 wCreate).2) := by
    have h1 : (wStore.write wFs0 wCreate).1 = Except.ok () := by decide
    exact Prod.ext h1 rfl
  exact C9_write_idempotent wStore wFs0 (wStore.write wFs0 wCreate).2 wCreate (by decide)
    (by decide) h

/-! ## C4 — create-last safety. -/

theorem verify_authority_ok (a : DataAuthority) (payload : Bytes)
    (h : a.signature = blsSign a.public_key payload) :
    a.verify_authority payload = Except.ok () := by
  rw [DataAuthority.verify_authority, if_pos h]

theorem pathExists_false_lookup_none (fs : FS) (q : FsPath) (h : fs.pathExists q = false) :
    fs.lookupFile q = none := by
  rw [FS.pathExists, Bool.or_eq_false_iff] at h
  cases hlk : fs.lookupFile q with
  | none => rfl
  | some b => rw [hlk] at h; simp at h

theorem writeFile_pathExists_other (fs : FS) (p q : FsPath) (b : Bytes) (h : q ≠ p) :
    (fs.writeFile p b).pathExists q = fs.pathExists q := by
  rw [FS.pathExists, FS.pathExists, writeFile_lookup_other fs p q b h, writeFile_dirs]

theorem mem_listFiles_shape (fs : FS) (dir q : FsPath) (h : q ∈ fs.list_files_in dir) :
    ∃ nm : String, q = dir ++ [nm] := by
  rw [FS.list_files_in, List.mem_filter] at h
  obtain ⟨_, hcond⟩ := h
  simp only [decide_eq_true_eq] at hcond
  obtain ⟨hlen, htake⟩ := hcond
  have hsplit : q = q.take dir.length ++ q.drop dir.length := (List.take_append_drop _ q).symm
  have hdroplen : (q.drop dir.length).length = 1 := by
    rw [List.length_drop, hlen]
    omega
  obtain ⟨nm, hnm⟩ := List.length_eq_one.mp hdroplen
  exact ⟨nm, by rw [hsplit, htake, hnm]⟩

theorem decodedCmds_nil_of_no_children (fs : FS) (dir : FsPath)
    (h : ∀ nm : String, fs.pathExists (dir ++ [nm]) = false) :
    decodedCmds fs dir = [] := by
  rw [decodedCmds]
  have hempty : fs.list_files_in dir = [] := by
    rw [List.eq_nil_iff_forall_not_mem]
    intro q hq
    obtain ⟨nm, rfl⟩ := mem_listFiles_shape fs dir q hq
    have hsome := lookup_isSome_of_mem_map_fst fs _ (mem_files_of_mem_listFiles fs dir _ hq)
    rw [pathExists_false_lookup_none fs _ (h nm)] at hsome
    simp at hsome
  rw [hempty]
  rfl

theorem append_singleton_inj (p : FsPath) (a b : String) :
    p ++ [a] = p ++ [b] ↔ a = b := by
  constructor
  · intro h
    have := List.append_cancel_left h
    simpa using this
  · intro h
    rw [h]

theorem apply_ok_dst (s : RegisterStorage) (cmd : RegisterCmd) (r r' : Register)
    (h : s.apply cmd r = Except.ok r') : cmd.dst = r.address := by
  rw [RegisterStorage.apply.eq_def] at h
  by_cases haddr : cmd.dst ≠ r.address
  · rw [if_pos haddr] at h
    cases h
  · exact not_ne_iff.mp haddr

theorem writeAll_cons (s : RegisterStorage) (fs : FS) (c : RegisterCmd)
    (l : List RegisterCmd) :
    writeAll s fs (c :: l)
      = match s.write fs c with
        | (.ok _, fs') => writeAll s fs' l
        | (.error e, _) => Except.error e := rfl

theorem writeAll_append (s : RegisterStorage) (fs : FS) (l1 l2 : List RegisterCmd) :
    writeAll s fs (l1 ++ l2)
      = match writeAll s fs l1 with
        | .ok fs' => writeAll s fs' l2
        | .error e => Except.error e := by
  induction l1 generalizing fs with
  | nil => rfl
  | cons c cs ih =>
    rw [List.cons_append, writeAll_cons, writeAll_cons]
    cases s.write fs c with
    | mk res fs' =>
      cases res with
      | error e => rfl
      | ok _ => exact ih fs'

theorem replayEdits_append_create (l : List RegisterCmd) (c : SignedRegisterCreate)
    (r : Register) :
    replayEdits (l ++ [RegisterCmd.Create c]) r = replayEdits l r := by
  rw [replayEdits_append, replayEdits_cons_create, replayEdits_nil]

theorem firstCreateRegister_append_create_none (l : List RegisterCmd)
    (c : SignedRegisterCreate) (h : firstCreateRegister l = none) :
    firstCreateRegister (l ++ [RegisterCmd.Create c])
      = some (Register.new c.op.policy.owner c.op.name c.op.tag c.op.policy) := by
  rw [firstCreateRegister_append, h]
  rfl

/-- One successful `write` of an edit onto a consistent register
directory: the op file is created and the decoded log grows by the
edit. -/
theorem write_edit_step (s : RegisterStorage) (addr : RegisterAddress) (fs : FS)
    (L : List RegisterCmd) (e : RegisterCmd) (hedit : isEditCmd e) (hwf : e.wf)
    (hdst : e.dst = addr)
    (happly : firstCreateRegister L = none
      ∨ ∃ r0, firstCreateRegister L = some r0 ∧ ∃ r', s.apply e (replayEdits L r0)
          = Except.ok r')
    (hdec : decodedCmds fs (regDirPath s addr) = L)
    (hclean : fs.pathExists (regDirPath s addr) = false → L = [])
    (hnew : fs.pathExists (regDirPath s addr ++ [opIdStr e]) = false) :
    ∃ fs1, s.write fs e = (Except.ok (), fs1)
      ∧ fs1 = (fs.createDirAll (regDirPath s addr)).writeFile
          (regDirPath s addr ++ [opIdStr e]) (serializeCmd e)
      ∧ decodedCmds fs1 (regDirPath s addr) = L ++ [e]
      ∧ (∀ nm : String, nm ≠ opIdStr e →
          fs1.pathExists (regDirPath s addr ++ [nm])
            = fs.pathExists (regDirPath s addr ++ [nm]))
      ∧ fs1.pathExists (regDirPath s addr) = true := by
  set path := regDirPath s addr with hpathdef
  obtain ⟨ed, rfl⟩ : ∃ ed, e = RegisterCmd.Edit ed := by
    cases e with
    | Create c => exact absurd hedit (by simp [isEditCmd])
    | Edit ed => exact ⟨ed, rfl⟩
  have hpathdst : regDirPath s (RegisterCmd.Edit ed).dst = path := by rw [hdst]
  have hload : loadStored s fs (RegisterCmd.Edit ed).dst
      = ⟨(firstCreateRegister L).map (replayEdits L), L, path⟩ := by
    rw [hdst, loadStored_char s fs addr (fun hf => by rw [hdec]; exact hclean hf), hdec]
  have hta : ∃ st', s.try_to_apply_cmd_against_register_state (RegisterCmd.Edit ed)
      (loadStored s fs (RegisterCmd.Edit ed).dst) = Except.ok st' := by
    rw [hload]
    rcases happly with hnone | ⟨r0, hr0, r', hr'⟩
    · exact ⟨_, try_apply_none_edit s _ ed (by simp [hnone])⟩
    · have heq := try_apply_some_edit s ⟨(firstCreateRegister L).map (replayEdits L), L, path⟩
        ed (replayEdits L r0) (by simp [hr0])
      rw [hr'] at heq
      exact ⟨_, heq⟩
  obtain ⟨st', hst'⟩ := hta
  have hpath' : st'.op_log_path = path := by
    rw [try_apply_path s _ _ st' hst', hload]
  have hlongex : (fs.createDirAll path).pathExists (path ++ [opIdStr (RegisterCmd.Edit ed)])
      = false := by
    rw [createDirAll_pathExists_longer fs path _ (by simp)]
    exact hnew
  refine ⟨(fs.createDirAll path).writeFile (path ++ [opIdStr (RegisterCmd.Edit ed)])
    (serializeCmd (RegisterCmd.Edit ed)), ?_, rfl, ?_, ?_, ?_⟩
  · rw [write_eq, hst']
    simp only []
    rw [hpath', write_log_single, hlongex]
    simp
  · rw [decodedCmds_writeFile (fs.createDirAll path) path (opIdStr (RegisterCmd.Edit ed))
      (serializeCmd (RegisterCmd.Edit ed)) (RegisterCmd.Edit ed)
      (pathExists_false_lookup_none _ _ hlongex)
      (deserializeCmd_serializeCmd _ hwf), decodedCmds_createDirAll, hdec]
  · intro nm hnm
    rw [writeFile_pathExists_other _ _ _ _ (by
      intro hq
      exact hnm ((append_singleton_inj path nm (opIdStr (RegisterCmd.Edit ed))).mp hq))]
    rw [createDirAll_pathExists_longer fs path _ (by simp)]
  · have hmem : path ∈ ((fs.createDirAll path).writeFile
        (path ++ [opIdStr (RegisterCmd.Edit ed)]) (serializeCmd (RegisterCmd.Edit ed))).dirs := by
      rw [writeFile_dirs]
      exact (createDirAll_dirs_mem fs path path).mpr
        (Or.inr (mem_fsPathPrefixes_self path (regDirPath_ne_nil s addr)))
    simp [FS.pathExists, hmem]

theorem firstCreateRegister_append_edit_cmd (l : List RegisterCmd) (e : RegisterCmd)
    (he : isEditCmd e) : firstCreateRegister (l ++ [e]) = firstCreateRegister l := by
  cases e with
  | Create c => exact absurd he (by simp [isEditCmd])
  | Edit ed => exact firstCreateRegister_append_edit l ed

/-- Writing a sequence of valid edits for one address: every write
succeeds, the decoded log grows by exactly those edits (in order), and
nothing else under the register directory changes. -/
theorem writeAll_edits (s : RegisterStorage) (addr : RegisterAddress) (R0 : Register) :
    ∀ edits : List RegisterCmd,
      (∀ e ∈ edits, isEditCmd e ∧ e.wf ∧ ∃ r', s.apply e R0 = Except.ok r') →
      (edits.map opIdStr).Nodup →
      ∀ (fs : FS) (L : List RegisterCmd),
        decodedCmds fs (regDirPath s addr) = L →
        (fs.pathExists (regDirPath s addr) = false → L = []) →
        (firstCreateRegister L = none ∨ firstCreateRegister L = some R0) →
        (∀ e ∈ edits, fs.pathExists (regDirPath s addr ++ [opIdStr e]) = false) →
        R0.address = addr →
        ∃ fs', writeAll s fs edits = Except.ok fs'
          ∧ decodedCmds fs' (regDirPath s addr) = L ++ edits
          ∧ (fs'.pathExists (regDirPath s addr) = false → L ++ edits = [])
          ∧ ∀ nm : String, (∀ e ∈ edits, nm ≠ opIdStr e) →
              fs'.pathExists (regDirPath s addr ++ [nm])
                = fs.pathExists (regDirPath s addr ++ [nm]) := by
  intro edits
  induction edits with
  | nil =>
    intro _ _ fs L hdec hclean _ _ _
    exact ⟨fs, rfl, by simp [hdec], by intro h; simp [hclean h], fun nm _ => rfl⟩
  | cons e rest ih =>
    intro hed hnodup fs L hdec hclean hfc hnew hR0addr
    obtain ⟨hedit, hwf, r', hr'⟩ := hed e (List.mem_cons_self e rest)
    have hdst : e.dst = addr := by
      rw [apply_ok_dst s e R0 r' hr', hR0addr]
    have happly : firstCreateRegister L = none
        ∨ ∃ r0, firstCreateRegister L = some r0
          ∧ ∃ r'', s.apply e (replayEdits L r0) = Except.ok r'' := by
      rcases hfc with hnone | hsome
      · exact Or.inl hnone
      · exact Or.inr ⟨R0, hsome, apply_ok_replay s e L R0 r' hr'⟩
    obtain ⟨fs1, hw, _, hdec1, hpres, hex1⟩ := write_edit_step s addr fs L e hedit hwf hdst
      happly hdec hclean (hnew e (List.mem_cons_self e rest))
    have hidne : ∀ e' ∈ rest, opIdStr e' ≠ opIdStr e := by
      intro e' he' heq
      rw [List.map_cons, List.nodup_cons] at hnodup
      exact hnodup.1 (heq ▸ List.mem_map_of_mem opIdStr he')
    obtain ⟨fs', hwAll, hdec', hclean', hpres'⟩ := ih
      (fun e' he' => hed e' (List.mem_cons_of_mem e he'))
      (by rw [List.map_cons, List.nodup_cons] at hnodup; exact hnodup.2)
      fs1 (L ++ [e]) hdec1
      (fun hfalse => by rw [hex1] at hfalse; cases hfalse)
      (by rw [firstCreateRegister_append_edit_cmd L e hedit]; exact hfc)
      (fun e' he' => by
        rw [hpres (opIdStr e') (hidne e' he')]
        exact hnew e' (List.mem_cons_of_mem e he'))
      hR0addr
    refine ⟨fs', ?_, ?_, ?_, ?_⟩
    · rw [writeAll_cons, hw]
      exact hwAll
    · rw [hdec', List.append_assoc]
      rfl
    · intro hfalse
      have := hclean' hfalse
      simp at this
    · intro nm hnm
      rw [hpres' nm (fun e' he' => hnm e' (List.mem_cons_of_mem e he')),
        hpres nm (hnm e (List.mem_cons_self e rest))]

theorem exists_ok_of_not_isError {ε α : Type} (x : Except ε α) (h : isError x = false) :
    ∃ v, x = Except.ok v := by
  cases x with
  | error e => simp [isError] at h
  | ok v => exact ⟨v, rfl⟩

/-- One successful `write` of a `Create` onto a directory whose decoded
content is create-free: the signature is verified, a fresh Register is
built, the buffered log is replayed against it, and the op file is
persisted. -/
theorem write_create_step (s : RegisterStorage) (fs : FS) (L : List RegisterCmd)
    (c : SignedRegisterCreate)
    (hwfC : (RegisterCmd.Create c).wf)
    (hsig : c.auth.signature = blsSign c.auth.public_key (serializeCreateOp c.op))
    (hdec : decodedCmds fs (regDirPath s (RegisterCmd.Create c).dst) = L)
    (hclean : fs.pathExists (regDirPath s (RegisterCmd.Create c).dst) = false → L = [])
    (hfcL : firstCreateRegister L = none)
    (happly : ∀ e ∈ L, ∃ r', s.apply e
        (Register.new c.op.policy.owner c.op.name c.op.tag c.op.policy) = Except.ok r')
    (hnew : fs.pathExists (regDirPath s (RegisterCmd.Create c).dst
        ++ [opIdStr (RegisterCmd.Create c)]) = false) :
    ∃ fs1, s.write fs (RegisterCmd.Create c) = (Except.ok (), fs1)
      ∧ decodedCmds fs1 (regDirPath s (RegisterCmd.Create c).dst)
          = L ++ [RegisterCmd.Create c]
      ∧ fs1.pathExists (regDirPath s (RegisterCmd.Create c).dst) = true
      ∧ ∀ nm : String, nm ≠ opIdStr (RegisterCmd.Create c) →
          fs1.pathExists (regDirPath s (RegisterCmd.Create c).dst ++ [nm])
            = fs.pathExists (regDirPath s (RegisterCmd.Create c).dst ++ [nm]) := by
  set addr := (RegisterCmd.Create c).dst with haddrdef
  set path := regDirPath s addr with hpathdef
  have hload : loadStored s fs addr
      = ⟨(firstCreateRegister L).map (replayEdits L), L, path⟩ := by
    rw [loadStored_char s fs addr (fun hf => by rw [hdec]; exact hclean hf), hdec]
  have hta : ∃ st', s.try_to_apply_cmd_against_register_state (RegisterCmd.Create c)
      (loadStored s fs addr) = Except.ok st' := by
    rw [hload]
    have heq := try_apply_none_create s ⟨(firstCreateRegister L).map (replayEdits L), L, path⟩
      c (by simp [hfcL])
    rw [verify_authority_ok c.auth _ hsig] at heq
    simp only [] at heq
    rw [applyAll_eq_replay s L _ happly] at heq
    exact ⟨_, heq⟩
  obtain ⟨st', hst'⟩ := hta
  have hpath' : st'.op_log_path = path := by
    rw [try_apply_path s _ _ st' hst', hload]
  have hlongex : (fs.createDirAll path).pathExists
      (path ++ [opIdStr (RegisterCmd.Create c)]) = false := by
    rw [createDirAll_pathExists_longer fs path _ (by simp)]
    exact hnew
  refine ⟨(fs.createDirAll path).writeFile (path ++ [opIdStr (RegisterCmd.Create c)])
    (serializeCmd (RegisterCmd.Create c)), ?_, ?_, ?_, ?_⟩
  · rw [write_eq, hst']
    simp only []
    rw [hpath', write_log_single, hlongex]
    simp
  · rw [decodedCmds_writeFile (fs.createDirAll path) path (opIdStr (RegisterCmd.Create c))
      (serializeCmd (RegisterCmd.Create c)) (RegisterCmd.Create c)
      (pathExists_false_lookup_none _ _ hlongex)
      (deserializeCmd_serializeCmd _ hwfC), decodedCmds_createDirAll, hdec]
  · have hmem : path ∈ ((fs.createDirAll path).writeFile
        (path ++ [opIdStr (RegisterCmd.Create c)]) (serializeCmd (RegisterCmd.Create c))).dirs := by
      rw [writeFile_dirs]
      exact (createDirAll_dirs_mem fs path path).mpr
        (Or.inr (mem_fsPathPrefixes_self path (regDirPath_ne_nil s addr)))
    simp [FS.pathExists, hmem]
  · intro nm hnm
    rw [writeFile_pathExists_other _ _ _ _ (by
      intro hq
      exact hnm ((append_singleton_inj path nm (opIdStr (RegisterCmd.Create c))).mp hq))]
    rw [createDirAll_pathExists_longer fs path _ (by simp)]

/-- C4: create-last safety.  For a valid `Create` C and valid distinct
edits E1..En of its Register arriving at a fresh address,
`write(E1); ...; write(En); write(C)` and `write(C); write(E1); ...;
write(En)` both succeed and reconstruct the same Register state — the
fresh Register built from C's `(owner, name, tag, policy)` with all the
edits replayed.  The final conjunct captures the `(None, Create)`
mechanics: after a successful signature check, an error while replaying
the buffered op log propagates out of `try_apply`. -/
theorem C4_create_last (s : RegisterStorage) (fs0 : FS) (c : SignedRegisterCreate)
    (edits : List RegisterCmd)
    (hwfC : (RegisterCmd.Create c).wf)
    (hsig : c.auth.signature = blsSign c.auth.public_key (serializeCreateOp c.op))
    (hed : ∀ e ∈ edits, isEditCmd e ∧ e.wf ∧ isError (s.apply e
        (Register.new c.op.policy.owner c.op.name c.op.tag c.op.policy)) = false)
    (hnodup : (edits.map opIdStr).Nodup)
    (hidC : ∀ e ∈ edits, opIdStr e ≠ opIdStr (RegisterCmd.Create c))
    (hempty : ∀ nm : String,
      fs0.pathExists (regDirPath s (RegisterCmd.Create c).dst ++ [nm]) = false) :
    (∃ fsA fsB,
      writeAll s fs0 (edits ++ [RegisterCmd.Create c]) = Except.ok fsA
        ∧ writeAll s fs0 (RegisterCmd.Create c :: edits) = Except.ok fsB
        ∧ (loadStored s fsA (RegisterCmd.Create c).dst).state
            = (loadStored s fsB (RegisterCmd.Create c).dst).state
        ∧ (loadStored s fsA (RegisterCmd.Create c).dst).state
            = some (replayEdits edits
                (Register.new c.op.policy.owner c.op.name c.op.tag c.op.policy)))
      ∧ ∀ (st : StoredRegister) (c' : SignedRegisterCreate) (err : Error),
          st.state = none →
          c'.auth.verify_authority (serializeCreateOp c'.op) = Except.ok () →
          s.applyAll st.op_log
              (Register.new c'.op.policy.owner c'.op.name c'.op.tag c'.op.policy)
            = Except.error err →
          s.try_to_apply_cmd_against_register_state (RegisterCmd.Create c') st
            = Except.error err := by
  set addr := (RegisterCmd.Create c).dst with haddrdef
  set path := regDirPath s addr with hpathdef
  set R0 := Register.new c.op.policy.owner c.op.name c.op.tag c.op.policy with hR0def
  have hed' : ∀ e ∈ edits, isEditCmd e ∧ e.wf ∧ ∃ r', s.apply e R0 = Except.ok r' :=
    fun e he => ⟨(hed e he).1, (hed e he).2.1,
      exists_ok_of_not_isError _ (hed e he).2.2⟩
  have halledits : ∀ e ∈ edits, isEditCmd e := fun e he => (hed e he).1
  have hdec0 : decodedCmds fs0 path = [] := decodedCmds_nil_of_no_children fs0 path hempty
  have hR0addr : R0.address = addr := rfl
  constructor
  · -- Sequence 1: edits first, then the create.
    obtain ⟨fsE, hwE, hdecE, hcleanE, hpresE⟩ := writeAll_edits s addr R0 edits hed' hnodup
      fs0 [] hdec0 (fun _ => rfl) (Or.inl rfl) (fun e he => hempty (opIdStr e)) hR0addr
    have hdecE' : decodedCmds fsE path = edits := by simpa using hdecE
    obtain ⟨fsA, hwC, hdecA, hexA, _⟩ := write_create_step s fsE edits c hwfC hsig hdecE'
      (fun hf => by simpa using hcleanE hf)
      (firstCreateRegister_edits edits halledits)
      (fun e he => (hed' e he).2.2)
      (by rw [hpresE (opIdStr (RegisterCmd.Create c))
            (fun e he hq => hidC e he hq.symm)]
          exact hempty _)
    -- Sequence 2: the create first, then the edits.
    obtain ⟨fsB1, hwC2, hdecB1, hexB1, hpresB1⟩ := write_create_step s fs0 [] c hwfC hsig
      hdec0 (fun _ => rfl) rfl (by simp) (hempty _)
    obtain ⟨fsB, hwB, hdecB, hcleanB, _⟩ := writeAll_edits s addr R0 edits hed' hnodup
      fsB1 [RegisterCmd.Create c] (by simpa using hdecB1)
      (fun hf => by rw [hexB1] at hf; cases hf)
      (Or.inr rfl)
      (fun e he => by
        rw [hpresB1 (opIdStr e) (hidC e he)]
        exact hempty _)
      hR0addr
    refine ⟨fsA, fsB, ?_, ?_, ?_, ?_⟩
    · rw [writeAll_append, hwE]
      simp only []
      rw [writeAll_cons, hwC]
      rfl
    · rw [writeAll_cons, hwC2]
      exact hwB
    · -- Both loads produce the same state.
      have hexB : fsB.pathExists path = true := by
        cases hpe : fsB.pathExists path with
        | false =>
          have := hcleanB hpe
          simp at this
        | true => rfl
      have hA := loadStored_char s fsA addr (fun hf => by rw [hexA] at hf; cases hf)
      have hB := loadStored_char s fsB addr (fun hf => by rw [hexB] at hf; cases hf)
      rw [hA, hB, hdecA, hdecB]
      simp only []
      rw [firstCreateRegister_append_create_none edits c
        (firstCreateRegister_edits edits halledits)]
      have hfcB : firstCreateRegister (RegisterCmd.Create c :: edits) = some R0 := rfl
      rw [show ([RegisterCmd.Create c] ++ edits) = RegisterCmd.Create c :: edits from rfl,
        hfcB]
      simp only [Option.map]
      rw [replayEdits_append_create edits c R0, replayEdits_cons_create]
    · have hA := loadStored_char s fsA addr (fun hf => by rw [hexA] at hf; cases hf)
      rw [hA, hdecA]
      simp only []
      rw [firstCreateRegister_append_create_none edits c
        (firstCreateRegister_edits edits halledits)]
      simp only [Option.map]
      rw [replayEdits_append_create edits c R0]
  · intro st c' err hs hver happ
    rw [try_apply_none_create s st c' hs, hver]
    simp only []
    rw [happ]

/-- C4 witness: two concrete owner-signed edits before their `Create`
on an empty store; both orders succeed and agree on the loaded state. -/
theorem C4_witness :
    (∃ fsA fsB,
      writeAll wStore wFs0 ([wEdit, wEdit2] ++ [RegisterCmd.Create wCreateSigned])
          = Except.ok fsA
        ∧ writeAll wStore wFs0 (RegisterCmd.Create wCreateSigned :: [wEdit, wEdit2])
            = Except.ok fsB
        ∧ (loadStored wStore fsA (RegisterCmd.Create wCreateSigned).dst).state
            = (loadStored wStore fsB (RegisterCmd.Create wCreateSigned).dst).state
        ∧ (loadStored wStore fsA (RegisterCmd.Create wCreateSigned).dst).state
            = some (replayEdits [wEdit, wEdit2]
                (Register.new wCreateSigned.op.policy.owner wCreateSigned.op.name
                  wCreateSigned.op.tag wCreateSigned.op.policy)))
      ∧ ∀ (st : StoredRegister) (c' : SignedRegisterCreate) (err : Error),
          st.state = none →
          c'.auth.verify_authority (serializeCreateOp c'.op) = Except.ok () →
          wStore.applyAll st.op_log
              (Register.new c'.op.policy.owner c'.op.name c'.op.tag c'.op.policy)
            = Except.error err →
          wStore.try_to_apply_cmd_against_register_state (RegisterCmd.Create c') st
            = Except.error err :=
  C4_create_last wStore wFs0 wCreateSigned [wEdit, wEdit2] (by decide) (by decide)
    (by decide) (by decide) (by decide) (fun nm => rfl)

end SafeNetwork
